import Mathlib

/-!
# Verification development for the `app` command-line framework

Shallow embedding of `app.go`, `config.go`, `options.go` (package `app`) and
`fname/flags.go`, together with the library calls they make (`strings`,
`path/filepath`, `viper`, `pflag`, `errors.NewAggregate`), followed by
theorems about the option lifecycle, configuration precedence, environment
names, configuration discovery, process exit behaviour, the diagnostics and
the normalisation of flag names.

Go strings are Lean strings; case mapping acts on the ASCII letters.
-/

namespace app

/-! ## Package `strings` -/

namespace strings

/-- The lower-case letters. -/
def lowerLetters : List Char := "abcdefghijklmnopqrstuvwxyz".data

/-- The upper-case letters. -/
def upperLetters : List Char := "ABCDEFGHIJKLMNOPQRSTUVWXYZ".data

/-- The upper-case form of a rune of the ASCII range, as `unicode.ToUpper`
gives it there: a lower-case letter gives its capital, any other rune is left
as it is. A rune outside ASCII, which Go maps by the Unicode tables, is left
as it is here. -/
def toUpperRune (c : Char) : Char := ((lowerLetters.zip upperLetters).lookup c).getD c

/-- The lower-case form of a rune of the ASCII range, as `unicode.ToLower`
gives it there: a capital gives its lower-case letter, any other rune is left
as it is. A rune outside ASCII, which Go maps by the Unicode tables, is left
as it is here. -/
def toLowerRune (c : Char) : Char := ((upperLetters.zip lowerLetters).lookup c).getD c

/-- Go `strings.ToUpper`, rune by rune; it is the Go function on the strings
of ASCII runes (`isASCII`). -/
def ToUpper (s : String) : String := ⟨s.data.map toUpperRune⟩

/-- Go `strings.ToLower`, rune by rune; it is the Go function on the strings
of ASCII runes (`isASCII`). -/
def ToLower (s : String) : String := ⟨s.data.map toLowerRune⟩

/-- Whether every rune of a string is in the ASCII range. -/
def isASCII (s : String) : Bool := s.data.all (fun c => c.toNat < 128)

/-- Replacement of one rune by another. -/
def replaceRune (old new : Char) (c : Char) : Char := if c = old then new else c

/-- Go `strings.Replace(s, old, new, -1)` / `strings.ReplaceAll` for one-character
`old` and `new`. -/
def ReplaceAll (s : String) (old new : Char) : String := ⟨s.data.map (replaceRune old new)⟩

/-- Go `strings.NewReplacer(o1, n1, o2, n2, ...).Replace(s)` for one-character pairs:
every rune is rewritten by the first pair whose old rune it equals. -/
def replacerRune : List (Char × Char) → Char → Char
  | [], c => c
  | (o, n) :: rest, c => if c = o then n else replacerRune rest c

/-- Application of a replacer (a list of one-character pairs) to a string. -/
def Replacer.Replace (pairs : List (Char × Char)) (s : String) : String :=
  ⟨s.data.map (replacerRune pairs)⟩

/-- Splitting of a rune list at every occurrence of `sep`; the empty list
gives one empty piece, as Go `strings.Split` does. -/
def splitRunes (sep : Char) : List Char → List (List Char)
  | [] => [[]]
  | c :: cs =>
    if c = sep then [] :: splitRunes sep cs
    else
      match splitRunes sep cs with
      | [] => [[c]]
      | h :: t => (c :: h) :: t

/-- Go `strings.Split(s, sep)` for a one-character separator. -/
def Split (s : String) (sep : Char) : List String :=
  (splitRunes sep s.data).map String.mk

/-- Go `strings.Contains(s, sub)` for a one-character `sub`. -/
def Contains (s : String) (c : Char) : Bool := s.data.contains c

/-- Go `strings.Join`. -/
def Join (parts : List String) (sep : String) : String := sep.intercalate parts

end strings

/-! ## Package `path/filepath` (Unix) -/

namespace filepath

/-- One step of the lexical cleaning of a path: `stack` holds the kept
segments, innermost first. Empty and `.` segments vanish, `..` removes the
segment before it (at the root it vanishes, in a relative path with nothing
to remove it is kept). -/
def cleanStep (rooted : Bool) (stack : List String) (seg : String) : List String :=
  if seg = "" ∨ seg = "." then stack
  else if seg = ".." then
    match stack with
    | [] => if rooted then [] else [".."]
    | top :: rest => if top = ".." then ".." :: top :: rest else rest
  else seg :: stack

/-- Go `filepath.Clean` on Unix. -/
def Clean (path : String) : String :=
  if path = "" then "."
  else
    let rooted := path.data.head? = some '/'
    let segs := (strings.Split path '/').foldl (cleanStep rooted) []
    let body := strings.Join segs.reverse "/"
    if rooted then "/" ++ body else if body = "" then "." else body

/-- Go `filepath.Join` of two elements: empty elements are ignored, the
rest are joined by the separator and the result is cleaned; all elements
empty gives the empty string. -/
def Join (a b : String) : String :=
  if a = "" ∧ b = "" then ""
  else if a = "" then Clean b
  else Clean (a ++ "/" ++ b)

end filepath

/-- The entries of a list in order, every later repetition left out. -/
def distinct {α : Type} [DecidableEq α] : List α → List α
  | [] => []
  | x :: xs => x :: (distinct xs).filter (fun y => y ≠ x)

/-! ## Package `pflag` -/

/-- The part of a `pflag.Flag` the program reads. -/
structure Flag where
  /-- The `Name` field. -/
  Name : String
  /-- The result of `Value.String()`. -/
  Value : String
  /-- The `DefValue` field. -/
  DefValue : String
  /-- The `Changed` field. -/
  Changed : Bool
deriving DecidableEq, Repr

/-- Field values of an options object, by lower-case dotted key path. -/
abbrev Fields := List (String × String)

/-- Association-list lookup. -/
def Fields.get (fs : Fields) (k : String) : Option String :=
  (fs.find? (fun p => p.1 == k)).map Prod.snd

/-! ## Package `fname` -/

namespace fname

/-- The function `WordSepNormalizeFunc`; the flag set it is handed is not
used. -/
def WordSepNormalizeFunc (name : String) : String :=
  if strings.Contains name '_' then strings.ReplaceAll name '_' '-' else name

/-- The function `WarnWordSepNormalizeFunc`: the warning it prints, if any,
and the name it returns. -/
def WarnWordSepNormalizeFunc (name : String) : Option String × String :=
  if strings.Contains name '_' then
    let nName := strings.ReplaceAll name '_' '-'
    (some (name ++ " is DEPRECATED and will be removed in a future version. Use "
      ++ nName ++ " instead.\n"), nName)
  else (none, name)

end fname

/-! ## Package `viper` -/

/-- The state of the package-level `viper` instance the program touches. -/
structure Viper where
  /-- The field `configFile`, set by `SetConfigFile`. -/
  configFile : String := ""
  /-- The field `configPaths`, extended by `AddConfigPath`. -/
  configPaths : List String := []
  /-- The field `configName`, set by `SetConfigName`. -/
  configName : String := "config"
  /-- The field `automaticEnvApplied`. -/
  automaticEnvApplied : Bool := false
  /-- The field `envPrefix`. -/
  envPrefix : String := ""
  /-- The field `envKeyReplacer`, as its one-character pairs; the empty list is
  no replacer. -/
  envKeyReplacer : List (Char × Char) := []
  /-- The leaf keys and values of the configuration file read in. -/
  config : Fields := []
  /-- The field `pflags`: the bound flags by lower-case key. -/
  pflags : List (String × Flag) := []
deriving DecidableEq, Repr

namespace Viper

/-- The method `AutomaticEnv`. -/
def AutomaticEnv (v : Viper) : Viper := { v with automaticEnvApplied := true }

/-- The method `SetEnvPrefix`: the empty string leaves the field as it is. -/
def SetEnvPrefix (v : Viper) (p : String) : Viper :=
  if p ≠ "" then { v with envPrefix := p } else v

/-- The method `SetEnvKeyReplacer`. -/
def SetEnvKeyReplacer (v : Viper) (pairs : List (Char × Char)) : Viper :=
  { v with envKeyReplacer := pairs }

/-- The method `SetConfigFile`: the empty string leaves the field as it is. -/
def SetConfigFile (v : Viper) (p : String) : Viper :=
  if p ≠ "" then { v with configFile := p } else v

/-- The method `AddConfigPath`: a non-empty path not yet present is appended. -/
def AddConfigPath (v : Viper) (p : String) : Viper :=
  if p ≠ "" ∧ p ∉ v.configPaths then { v with configPaths := v.configPaths ++ [p] } else v

/-- The method `SetConfigName`: the empty string leaves the field as it is. -/
def SetConfigName (v : Viper) (n : String) : Viper :=
  if n ≠ "" then { v with configName := n, configFile := "" } else v

/-- The method `mergeWithEnvPrefix`. -/
def mergeWithEnvPrefix (v : Viper) (k : String) : String :=
  if v.envPrefix ≠ "" then strings.ToUpper (v.envPrefix ++ "_" ++ k)
  else strings.ToUpper k

/-- The name `getEnv` looks up in the process environment for `key`. -/
def envName (v : Viper) (key : String) : String :=
  strings.Replacer.Replace v.envKeyReplacer key

/-- The method `getEnv`: the variable must be present and non-empty. -/
def getEnv (v : Viper) (environ : Fields) (key : String) : Option String :=
  match environ.get (v.envName key) with
  | some val => if val ≠ "" then some val else none
  | none => none

/-- The proper parent paths of a dotted key: `a.b.c` gives `a` and `a.b`. -/
def parentPaths (key : String) : List String :=
  let path := strings.Split key '.'
  (List.range path.length).tail.map (fun i => strings.Join (path.take i) ".")

/-- The method `isPathShadowedInFlatMap` on the bound flags: a proper parent
path of the key is itself a bound flag. -/
def shadowedInFlags (v : Viper) (key : String) : Bool :=
  (parentPaths key).any (fun p => (v.pflags.find? (fun q => q.1 == p)).isSome)

/-- The method `isPathShadowedInAutoEnv`: a proper parent path of the key has
an environment value. -/
def shadowedInAutoEnv (v : Viper) (environ : Fields) (key : String) : Bool :=
  (parentPaths key).any (fun p => (v.getEnv environ (v.mergeWithEnvPrefix p)).isSome)

/-- The method `isPathShadowedInDeepMap` on the configuration: a proper
parent path of the key is a leaf of the configuration file. -/
def shadowedInConfig (v : Viper) (key : String) : Bool :=
  (parentPaths key).any (fun p => (v.config.get p).isSome)

/-- The method `find` behind `Get`, for an instance with no alias, no `Set`
override, no bound environment key, no key/value store and no default: a
changed flag first, then the automatic environment, then the configuration
file, then the value of an unchanged flag. -/
def find (v : Viper) (environ : Fields) (key : String) : Option String :=
  let lcaseKey := strings.ToLower key
  let flag := (v.pflags.find? (fun q => q.1 == lcaseKey)).map Prod.snd
  match flag.filter (fun f => f.Changed) with
  | some f => some f.Value
  | none =>
    if v.shadowedInFlags lcaseKey then none
    else
      match (if v.automaticEnvApplied then v.getEnv environ (v.mergeWithEnvPrefix lcaseKey)
             else none) with
      | some val => some val
      | none =>
        if v.automaticEnvApplied && v.shadowedInAutoEnv environ lcaseKey then none
        else
          match v.config.get lcaseKey with
          | some val => some val
          | none =>
            if v.shadowedInConfig lcaseKey then none
            else flag.map (fun f => f.Value)

/-- The method `Get`. -/
def Get (v : Viper) (environ : Fields) (key : String) : Option String := v.find environ key

/-- The method `AllKeys`: the keys of the bound flags and of the
configuration file. -/
def AllKeys (v : Viper) : List String :=
  distinct (v.pflags.map Prod.fst ++ v.config.map Prod.fst)

/-- The method `BindFlagValue` on the map `pflags`: the flag is bound under
its lower-case name, replacing an earlier binding of that key. -/
def bindFlagValue (m : List (String × Flag)) (f : Flag) : List (String × Flag) :=
  (strings.ToLower f.Name, f) :: m.filter (fun q => q.1 != strings.ToLower f.Name)

/-- The store after `BindFlagValue` on every flag of a set. -/
def bindAll (v : Viper) (flags : List Flag) : Viper :=
  { v with pflags := flags.foldl bindFlagValue v.pflags }

/-- The method `BindPFlags`; it returns no error for a flag set. -/
def BindPFlags (v : Viper) (flags : List Flag) : Except String Viper :=
  .ok (v.bindAll flags)

/-- The method `AllSettings`, as the leaf entries of the nested map it
builds: every key of `AllKeys` whose `Get` is not nil, with that value. Key
sets in which one key is a dotted parent of another are outside this flat
reading. -/
def AllSettings (v : Viper) (environ : Fields) : Fields :=
  v.AllKeys.filterMap (fun k => (v.Get environ k).map (fun val => (k, val)))

/-- The method `ConfigFileUsed`. -/
def ConfigFileUsed (v : Viper) : String := v.configFile

/-- The method `ReadInConfig`: `readFile` stands for the file system and the
parsers; given the explicit file, the search paths and the file name it
gives the path and the leaf entries of the file read, or the error. -/
def ReadInConfig {ε : Type} (v : Viper)
    (readFile : String → List String → String → Except ε (String × Fields)) :
    Except ε Viper :=
  match readFile v.configFile v.configPaths v.configName with
  | .ok (path, cfg) => .ok { v with configFile := path, config := cfg }
  | .error e => .error e

end Viper

/-! ## Package `errors` -/

/-- The `error` values of the program: an error value made by the
application author, or the aggregate built by `errors.NewAggregate`. A nil
`error` is `none : Option _`; `lib` is an error made inside a library. -/
inductive GoError (ε : Type) where
  | err (e : ε)
  | aggregate (errs : List ε)
  | lib (message : String)
deriving DecidableEq, Repr

namespace errors

/-- The function `errors.NewAggregate`: nil entries are left out, and an
empty list, or one with nil entries only, gives nil. -/
def NewAggregate {ε : Type} (errlist : List (Option ε)) : Option (GoError ε) :=
  if errlist.length = 0 then none
  else
    let errs := errlist.filterMap id
    if errs.length = 0 then none else some (.aggregate errs)

/-- The messages an aggregate reports: those of its entries in order, a
message already seen left out. -/
def aggregateMessages {ε : Type} (msg : ε → String) (errs : List ε) : List String :=
  distinct (errs.map msg)

end errors

/-- The method `Error()`: an aggregate of one entry gives that entry's
message, otherwise the distinct messages separated by `, `, in brackets when
there is more than one. -/
def GoError.Error {ε : Type} (msg : ε → String) : GoError ε → String
  | .err e => msg e
  | .lib m => m
  | .aggregate errs =>
    match errs with
    | [] => ""
    | [e] => msg e
    | _ =>
      let msgs := errors.aggregateMessages msg errs
      let result := strings.Join msgs ", "
      if msgs.length = 1 then result else "[" ++ result ++ "]"

/-! ## Package `app`: data -/

/-- The interfaces of `options.go`, as the methods an options object has;
the methods act on the field values of the object. -/
structure CliOptions (ε : Type) where
  /-- The method `Validate() []error`; entries of the slice may be nil. -/
  Validate : Fields → Fields × List (Option ε)
  /-- The method `Complete() error` of `CompletableOptions`, when implemented. -/
  Complete : Option (Fields → Fields × Option ε) := none
  /-- The method `String() string` of `PrintableOptions`, when implemented. -/
  String : Option (Fields → String) := none
  /-- The error, if any, of decoding a settings map into the object. -/
  decodeErr : Fields → Option ε := fun _ => none

/-- The struct `App`. -/
structure App (ε : Type) where
  basename : String
  name : String
  description : String := ""
  options : Option (CliOptions ε) := none
  runFunc : Option (String → Option ε) := none
  silence : Bool := false
  noVersion : Bool := false
  noConfig : Bool := false
  args : Option (List String → Option ε) := none

/-- What the process does that can be observed from outside or by a spy. -/
inductive Event where
  | stdout (s : String)
  | stderr (s : String)
  | ReadInConfig
  | BindPFlags
  | Unmarshal
  | Complete
  | Validate
  | String
  | runFunc (basename : String)
deriving DecidableEq, Repr

/-- The mutable state of the process. -/
structure State where
  /-- The package-level `viper` instance. -/
  viper : Viper := {}
  /-- The field values of the options object `a.options`. -/
  options : Fields := []
  /-- The events so far, oldest first. -/
  trace : List Event := []
deriving DecidableEq, Repr

/-- The state after one more event. -/
def State.emit (s : State) (e : Event) : State := { s with trace := s.trace ++ [e] }

/-- How a function ends: it returns, or the process ends in `os.Exit`. -/
inductive Exec (α : Type) where
  | ret (a : α)
  | exit (code : Nat)
deriving DecidableEq, Repr

/-- The surroundings of one process run, fixed from outside the program. -/
structure World (ε : Type) where
  /-- The process environment (`os.LookupEnv`). -/
  environ : Fields := []
  /-- The result of `os.Getwd`. -/
  wd : String := ""
  /-- The package variable `cfgFile` once the arguments are parsed. -/
  cfgFile : String := ""
  /-- The flags of `cmd.Flags()` once the arguments are parsed, in the order of
  `VisitAll`. -/
  flags : List Flag := []
  /-- The file system and parsers behind `viper.ReadInConfig`. -/
  readFile : String → List String → String → Except ε (String × Fields)
  /-- The method `Error()` of the error values. -/
  msg : ε → String
  /-- The version text to print when the version flag asks for it. -/
  versionRequest : Option String := none
  /-- The value `version.Get().ToJSON()`. -/
  versionJSON : String := ""
  /-- The value `color.GreenString("==>")`. -/
  progressMessage : String := "==>"
  /-- The value `color.RedString("Error:")`. -/
  errorMarker : String := "Error:"
  /-- The rendering of a `uitable` of two columns. -/
  table : Fields → String := fun _ => ""
  /-- The verb `%q` on a string. -/
  quote : String → String := fun x => "\"" ++ x ++ "\""
  /-- The result of `fmt.Sprintf(format)` without operands. -/
  sprintf0 : String → String := fun x => x
  /-- The error, if any, of parsing the command line. -/
  parseErr : Option ε := none
  /-- Whether the help flag is set. -/
  helpRequested : Bool := false
  /-- The help text of the command. -/
  helpText : String := ""
  /-- The arguments that are not flags. -/
  positional : List String := []

/-! ## `config.go` -/

/-- The three `viper` calls of `addConfigFlag`: automatic environment, the
environment prefix from the base name, the key replacer. -/
def addConfigFlag (basename : String) (v : Viper) : Viper :=
  let v := v.AutomaticEnv
  let v := v.SetEnvPrefix (strings.ReplaceAll (strings.ToUpper basename) '-' '_')
  v.SetEnvKeyReplacer [('.', '_'), ('-', '_')]

/-- The first statement of the closure `addConfigFlag` hands to
`cobra.OnInitialize`: the explicit file, or the search paths and the file
name. Search paths are kept as they are given. -/
def locateConfig (basename cfgFile : String) (v : Viper) : Viper :=
  if cfgFile ≠ "" then v.SetConfigFile cfgFile
  else
    let v := v.AddConfigPath "."
    let names := strings.Split basename '-'
    let v := if names.length > 1 then v.AddConfigPath (filepath.Join "/etc" (names.headD "")) else v
    v.SetConfigName basename

/-- The closure `addConfigFlag` hands to `cobra.OnInitialize`. -/
def onInitialize {ε : Type} (basename : String) (w : World ε) (s : State) : State × Exec Unit :=
  let v := locateConfig basename w.cfgFile s.viper
  let s := { s with viper := v }.emit .ReadInConfig
  match v.ReadInConfig w.readFile with
  | .error e =>
    (s.emit (.stderr ("Error: failed to read configuration file(" ++ w.cfgFile ++ "): "
        ++ w.msg e ++ "\n")), .exit 1)
  | .ok v => ({ s with viper := v }, .ret ())

/-- The function `printConfig`. -/
def printConfig {ε : Type} (w : World ε) (allKeys : List String) (s : State) : State :=
  if allKeys.length > 0 then
    let s := s.emit (.stdout (w.progressMessage ++ " Configuration items:\n"))
    let rows := allKeys.map (fun k => (k ++ ":", (s.viper.Get w.environ k).getD "<nil>"))
    s.emit (.stdout (w.table rows ++ "\n"))
  else s

/-! ## `app.go` -/

/-- The function `printWorkingDir`. -/
def printWorkingDir {ε : Type} (w : World ε) (s : State) : State :=
  s.emit (.stdout (w.progressMessage ++ " WorkingDir: " ++ w.wd ++ "\n"))

/-- Modelled from the spec: `verflag.PrintAndExitIfRequested` (package
`version/verflag`, not among the sources), the reserved version display: when
the version flag asks for it the version text is printed and the process
ends with status 0. -/
def PrintAndExitIfRequested {ε : Type} (w : World ε) (s : State) : State × Exec Unit :=
  match w.versionRequest with
  | some text => (s.emit (.stdout (text ++ "\n")), .exit 0)
  | none => (s, .ret ())

/-- The call `viper.Unmarshal(a.options)`: a nil `a.options` is refused;
otherwise every field with an entry in the settings takes that value and
the other fields keep theirs. On a decoding error the fields are left as
they were. -/
def Unmarshal {ε : Type} (v : Viper) (environ : Fields) (options : Option (CliOptions ε))
    (fields : Fields) : Except (GoError ε) Fields :=
  match options with
  | none => .error (.lib "result must be a pointer")
  | some o =>
    let settings := v.AllSettings environ
    match o.decodeErr settings with
    | some e => .error (.err e)
    | none => .ok (fields.map (fun p => (p.1, (settings.get p.1).getD p.2)))

/-- The method `applyOptionRules`, for the non-nil `a.options`. -/
def applyOptionRules {ε : Type} (a : App ε) (o : CliOptions ε) (w : World ε) (s : State) :
    State × Option (GoError ε) :=
  let completed : State × Option ε :=
    match o.Complete with
    | some complete =>
      let r := complete s.options
      ({ s with options := r.1 }.emit .Complete, r.2)
    | none => (s, none)
  match completed with
  | (s, some err) => (s, some (.err err))
  | (s, none) =>
    let r := o.Validate s.options
    let s := { s with options := r.1 }.emit .Validate
    if r.2.length ≠ 0 then (s, errors.NewAggregate r.2)
    else
      match o.String with
      | some string =>
        if !a.silence then
          ((s.emit .String).emit (.stdout (w.progressMessage ++ " Config: `"
            ++ string s.options ++ "`\n")), none)
        else (s, none)
      | none => (s, none)

/-- The lines the closure `pbF` writes into the builder `pb`. -/
def pbF (quote : String → String) (flag : Flag) : String :=
  if flag.Changed || flag.Value != flag.DefValue then
    "FLAG: --" ++ flag.Name ++ "=" ++ quote flag.Value ++ "\n"
  else ""

/-- The method `runCommand`. -/
def runCommand {ε : Type} (a : App ε) (w : World ε) (s : State) :
    State × Exec (Option (GoError ε)) :=
  match (if !a.noVersion then PrintAndExitIfRequested w s else (s, .ret ())) with
  | (s, .exit code) => (s, .exit code)
  | (s, .ret _) =>
    let s :=
      if !a.silence then
        if !a.noConfig then
          let s := s.emit (.stdout (w.progressMessage ++ " Config file used: `"
            ++ s.viper.ConfigFileUsed ++ "`\n"))
          printConfig w s.viper.AllKeys s
        else s
      else s
    let bound : String × State × Option (GoError ε) :=
      if !a.noConfig then
        let pb := String.join (w.flags.map (pbF w.quote))
        match s.viper.BindPFlags w.flags with
        | .error m => (pb, s, some (.lib m))
        | .ok v =>
          let s := { s with viper := v }.emit .BindPFlags
          match Unmarshal s.viper w.environ a.options s.options with
          | .error err => (pb, s.emit .Unmarshal, some err)
          | .ok fields => (pb, { s with options := fields }.emit .Unmarshal, none)
      else ("", s, none)
    match bound with
    | (_, s, some err) => (s, .ret (some err))
    | (pb, s, none) =>
      let s :=
        if !a.silence then
          let s := printWorkingDir w s
          let s := s.emit (.stdout (w.progressMessage ++ " Flags items:\n"))
          let s := s.emit (.stdout (w.sprintf0 pb))
          let s := s.emit (.stdout (w.progressMessage ++ " Starting " ++ a.name ++ " ...\n"))
          if !a.noVersion then
            s.emit (.stdout (w.progressMessage ++ " Version: `" ++ w.versionJSON ++ "`\n"))
          else s
        else s
      let ruled : State × Option (GoError ε) :=
        match a.options with
        | some o => applyOptionRules a o w s
        | none => (s, none)
      match ruled with
      | (s, some err) => (s, .ret (some err))
      | (s, none) =>
        match a.runFunc with
        | some run => (s.emit (.runFunc a.basename), .ret ((run a.basename).map .err))
        | none => (s, .ret none)

/-- The call `a.cmd.Execute()` for the command `buildCommand` makes (no
sub-commands): the arguments are parsed; the help flag, or a command
without `RunE`, gives the help text and no error; then the functions of
`cobra.OnInitialize` run, the arguments that are not flags are checked by
`a.args`, and `RunE` (`runCommand`) runs. -/
def Execute {ε : Type} (a : App ε) (w : World ε) (s : State) :
    State × Exec (Option (GoError ε)) :=
  match w.parseErr with
  | some e => (s, .ret (some (.err e)))
  | none =>
    if w.helpRequested || a.runFunc.isNone then (s.emit (.stdout w.helpText), .ret none)
    else
      match (if !a.noConfig then onInitialize a.basename w s else (s, .ret ())) with
      | (s, .exit code) => (s, .exit code)
      | (s, .ret _) =>
        match a.args.bind (fun check => check w.positional) with
        | some e => (s, .ret (some (.err e)))
        | none => runCommand a w s

/-- The method `Run`. -/
def Run {ε : Type} (a : App ε) (w : World ε) (s : State) : State × Exec Unit :=
  match Execute a w s with
  | (s, .ret (some err)) =>
    (s.emit (.stdout (w.errorMarker ++ " " ++ err.Error w.msg ++ "\n")), .exit 1)
  | (s, .ret none) => (s, .ret ())
  | (s, .exit code) => (s, .exit code)

/-- The method `RunContext`; the context is handed to `ExecuteContext`,
which executes the command as `Execute` does. -/
def RunContext {ε : Type} (a : App ε) (w : World ε) (s : State) : State × Exec Unit :=
  match Execute a w s with
  | (s, .ret (some err)) =>
    (s.emit (.stdout (w.errorMarker ++ " " ++ err.Error w.msg ++ "\n")), .exit 1)
  | (s, .ret none) => (s, .ret ())
  | (s, .exit code) => (s, .exit code)

/-- The state `NewApp` leaves: `buildCommand` has called `addConfigFlag`
unless the config flag is disabled; `fields` are the field values of the
options object once the arguments are parsed. -/
def NewApp {ε : Type} (a : App ε) (fields : Fields) : State :=
  { viper := if !a.noConfig then addConfigFlag a.basename {} else {}, options := fields }

/-- The exit status of a process whose `main` ends when `Run` returns. -/
def exitCode : Exec Unit → Nat
  | .ret _ => 0
  | .exit code => code

/-! ## Reading aids for the statements -/

/-- The environment variable `viper.Get` consults for the key `key` in an
app of base name `basename`: the store is set up by `addConfigFlag`, and
`find` hands the lower-case key, with the prefix, to `getEnv`. -/
def envVar (basename key : String) : String :=
  let v := addConfigFlag basename {}
  v.envName (v.mergeWithEnvPrefix (strings.ToLower key))

/-- The name the environment variable of a key is said to have: the
prefix, an underscore, and the key in upper case with `.` and `-` replaced
by `_`; the prefix is the base name in upper case with `-` replaced by `_`. -/
def envVarSpec (basename key : String) : String :=
  strings.ReplaceAll (strings.ToUpper basename) '-' '_' ++ "_"
    ++ strings.Replacer.Replace [('.', '_'), ('-', '_')] (strings.ToUpper key)

/-- The text of a base name before its first `-` (the whole name when it
has none). -/
def group (basename : String) : String := ⟨basename.data.takeWhile (fun c => c ≠ '-')⟩

/-- A plain directory name: not empty, not `.` or `..`, and without `/`. -/
def PlainName (g : String) : Prop := g ≠ "" ∧ g ≠ "." ∧ g ≠ ".." ∧ '/' ∉ g.data

/-- The store carries the environment set-up `addConfigFlag` makes for the
base name `b`. -/
def EnvSetUp (b : String) (v : Viper) : Prop :=
  v.automaticEnvApplied = true ∧ v.envPrefix = (addConfigFlag b {}).envPrefix
    ∧ v.envKeyReplacer = (addConfigFlag b {}).envKeyReplacer

/-- The error `Complete` gives on the fields `f`; nil when the object has
no `Complete`. -/
def completeErr {ε : Type} (o : CliOptions ε) (f : Fields) : Option ε :=
  match o.Complete with
  | some complete => (complete f).2
  | none => none

/-- The fields `Complete` leaves; `f` itself when the object has no
`Complete`. -/
def afterComplete {ε : Type} (o : CliOptions ε) (f : Fields) : Fields :=
  match o.Complete with
  | some complete => (complete f).1
  | none => f

/-- The slice `Validate` gives after `Complete` ran on the fields `f`. -/
def validateErrs {ε : Type} (o : CliOptions ε) (f : Fields) : List (Option ε) :=
  (o.Validate (afterComplete o f)).2

/-- The fields of the options object when the lifecycle hooks start: those
`viper.Unmarshal` leaves when the config feature is on and both binding and
decoding succeed, the fields at entry otherwise. -/
def resolvedFields {ε : Type} (a : App ε) (w : World ε) (s : State) : Fields :=
  if !a.noConfig then
    match s.viper.BindPFlags w.flags with
    | .ok v =>
      match Unmarshal v w.environ a.options s.options with
      | .ok fields => fields
      | .error _ => s.options
    | .error _ => s.options
  else s.options

/-- The error of the resolution step of `runCommand` (`BindPFlags`, then
`Unmarshal`); nil when the config feature is off. -/
def resolveErr {ε : Type} (a : App ε) (w : World ε) (s : State) : Option (GoError ε) :=
  if !a.noConfig then
    match s.viper.BindPFlags w.flags with
    | .ok v =>
      match Unmarshal v w.environ a.options s.options with
      | .ok _ => none
      | .error err => some err
    | .error m => some (.lib m)
  else none

/-- The lifecycle fails on the fields `f`: `Complete` returns an error, or
`Complete` succeeds and `Validate` returns a non-empty sequence (the test
`len(errs) != 0` of `applyOptionRules`). -/
def LifecycleFails {ε : Type} (o : CliOptions ε) (f : Fields) : Prop :=
  completeErr o f ≠ none ∨ (completeErr o f = none ∧ validateErrs o f ≠ [])

/-- The lifecycle has an error to report on the fields `f`: `Complete`
returns an error, or `Complete` succeeds and the sequence `Validate` returns
holds an entry that is not nil. -/
def LifecycleReports {ε : Type} (o : CliOptions ε) (f : Fields) : Prop :=
  completeErr o f ≠ none ∨ (completeErr o f = none ∧ ∃ e : ε, some e ∈ validateErrs o f)

/-- The lifecycle succeeds on the fields `f`: `Complete` returns nil and
`Validate` returns nothing to report. -/
def LifecycleSucceeds {ε : Type} (o : CliOptions ε) (f : Fields) : Prop :=
  completeErr o f = none ∧ errors.NewAggregate (validateErrs o f) = none

/-- Whether an event is a call of the run callback. -/
def Event.isRunFunc : Event → Bool
  | .runFunc _ => true
  | _ => false

/-- Whether an event is a line on standard output or standard error. -/
def Event.isOutput : Event → Bool
  | .stdout _ => true
  | .stderr _ => true
  | _ => false

/-- Whether an event is a line on standard error. -/
def Event.isStderr : Event → Bool
  | .stderr _ => true
  | _ => false

/-- A flag counts as supplied: its changed bit is set, or its value string
differs from its default value string. -/
def supplied (flag : Flag) : Bool := flag.Changed || flag.Value != flag.DefValue

/-- The diagnostic line of a flag. -/
def flagLine (quote : String → String) (flag : Flag) : String :=
  "FLAG: --" ++ flag.Name ++ "=" ++ quote flag.Value ++ "\n"

/-! ## Concrete objects -/

/-- An options object whose `Validate` returns the slice of one nil entry. -/
def nilFault : CliOptions String :=
  { Validate := fun f => (f, [none]) }

/-- An app with that options object and a callback, with neither version
nor config flag. -/
def nilFaultApp : App String :=
  { basename := "test", name := "test", options := some nilFault,
    runFunc := some (fun _ => none), noVersion := true, noConfig := true }

/-- A spy object whose `Complete` fails. -/
def spyComplete : CliOptions String :=
  { Validate := fun f => (f, [some "never"]), Complete := some (fun f => (f, some "boom")) }

/-- A world with no configuration file and string errors. -/
def plainWorld : World String :=
  { readFile := fun _ _ _ => .error "Not Found", msg := fun e => e }

/-- An options object whose `Validate` reports two errors. -/
def twoFaults : CliOptions String :=
  { Validate := fun f => (f, [some "host is empty", some "port out of range"]) }

/-- An app with the spy object, a callback, and neither version nor config
flag. -/
def spyApp : App String :=
  { basename := "test", name := "test", options := some spyComplete,
    runFunc := some (fun _ => none), noVersion := true, noConfig := true }

/-- The spy app in silent mode. -/
def silentSpy : App String :=
  { basename := "test", name := "test", options := some spyComplete,
    runFunc := some (fun _ => none), noVersion := true, noConfig := true, silence := true }

/-- An options object with one field and no fault. -/
def redisOptions : CliOptions String :=
  { Validate := fun f => (f, []) }

/-- An app whose callback fails with the base name in its message. -/
def failingRun : App String :=
  { basename := "test", name := "test", options := some redisOptions,
    runFunc := some (fun b => some ("cannot start " ++ b)), noVersion := true }

/-- The flag `--redis.host`, set on the command line. -/
def hostFlag : Flag :=
  { Name := "redis.host", Value := "10.0.0.5", DefValue := "127.0.0.1", Changed := true }

/-- The flag `--redis.host`, not set on the command line. -/
def hostDefault : Flag :=
  { Name := "redis.host", Value := "127.0.0.1", DefValue := "127.0.0.1", Changed := false }

/-- An app of base name `test` with the options object of one field. -/
def redisApp : App String :=
  { basename := "test", name := "test", options := some redisOptions,
    runFunc := some (fun _ => none), noVersion := true, silence := true }

/-- A world whose configuration file and environment both give the key
`redis.host`. -/
def fileAndEnv (flags : List Flag) : World String :=
  { readFile := fun _ _ _ => .ok ("./test.yaml", [("redis.host", "10.0.0.7")]),
    msg := fun e => e,
    environ := [("TEST_REDIS_HOST", "10.0.0.9")],
    flags := flags }

/-- An app with the config flag disabled, not silent, with a callback. -/
def noConfigApp : App String :=
  { basename := "test", name := "test", runFunc := some (fun _ => none), noVersion := true,
    noConfig := true }

/-- A world whose command line sets the flag `--redis.host`. -/
def hostWorld : World String :=
  { readFile := fun _ _ _ => .ok ("./test.yaml", []), msg := fun e => e,
    flags := [hostFlag, hostDefault] }

/-- An app with the config flag, not silent, with the options object of one
field and a callback. -/
def verboseApp : App String :=
  { basename := "test", name := "test", options := some redisOptions,
    runFunc := some (fun _ => none), noVersion := true }

/-- An options object that implements `String`. -/
def printable : CliOptions String :=
  { Validate := fun f => (f, []), String := some (fun _ => "redis at 127.0.0.1") }

/-- An app with the printable options object, not silent, with neither
version nor config flag. -/
def printableApp : App String :=
  { basename := "test", name := "test", options := some printable,
    runFunc := some (fun _ => none), noVersion := true, noConfig := true }

/-! ## Steps of the state -/

@[simp] theorem State.emit_trace (s : State) (e : Event) : (s.emit e).trace = s.trace ++ [e] := rfl

@[simp] theorem State.emit_options (s : State) (e : Event) : (s.emit e).options = s.options := rfl

@[simp] theorem State.emit_viper (s : State) (e : Event) : (s.emit e).viper = s.viper := rfl

/-! ## The option lifecycle -/

/-- A failing `Complete` ends `applyOptionRules` with its error. -/
theorem complete_error_returned {ε : Type} (a : App ε) (o : CliOptions ε)
    (w : World ε) (s : State) (complete : Fields → Fields × Option ε) (e : ε)
    (hc : o.Complete = some complete) (he : (complete s.options).2 = some e) :
    (applyOptionRules a o w s).2 = some (.err e) := by
  simp [applyOptionRules, hc, he]

/-- A failing `Complete` is the only event of `applyOptionRules`. -/
theorem complete_error_trace {ε : Type} (a : App ε) (o : CliOptions ε)
    (w : World ε) (s : State) (complete : Fields → Fields × Option ε) (e : ε)
    (hc : o.Complete = some complete) (he : (complete s.options).2 = some e) :
    (applyOptionRules a o w s).1.trace = s.trace ++ [Event.Complete] := by
  simp [applyOptionRules, hc, he]

/-- C1: when the options object implements `Complete` and `Complete` returns a
non-nil error, `applyOptionRules` returns exactly that error, and the only
event it adds is the call of `Complete`: `Validate` is not invoked (the
number of `Validate` calls in the trace is what it was at entry). -/
theorem applyOptionRules_complete_error {ε : Type} (a : App ε) (o : CliOptions ε)
    (w : World ε) (s : State) (complete : Fields → Fields × Option ε) (e : ε)
    (hc : o.Complete = some complete) (he : (complete s.options).2 = some e) :
    (applyOptionRules a o w s).2 = some (.err e)
      ∧ (applyOptionRules a o w s).1.trace = s.trace ++ [Event.Complete]
      ∧ (applyOptionRules a o w s).1.trace.count Event.Validate
          = s.trace.count Event.Validate := by
  have ht := complete_error_trace a o w s complete e hc he
  refine ⟨complete_error_returned a o w s complete e hc he, ht, ?_⟩
  rw [ht, List.count_append]
  simp

/-- C1 at the spy object: `Complete` fails with `boom`. -/
theorem applyOptionRules_complete_error_witness :
    (applyOptionRules { basename := "test", name := "test" } spyComplete plainWorld {}).2
        = some (.err "boom")
      ∧ (applyOptionRules { basename := "test", name := "test" } spyComplete plainWorld {}).1.trace
        = ([] : List Event) ++ [Event.Complete]
      ∧ (applyOptionRules { basename := "test", name := "test" } spyComplete
          plainWorld {}).1.trace.count Event.Validate = ([] : List Event).count Event.Validate :=
  applyOptionRules_complete_error { basename := "test", name := "test" } spyComplete plainWorld {}
    (fun f => (f, some "boom")) "boom" rfl rfl

/-- The distinct entries of a list are its entries. -/
theorem mem_distinct {α : Type} [DecidableEq α] (xs : List α) (x : α) :
    x ∈ distinct xs ↔ x ∈ xs := by
  induction xs with
  | nil => simp [distinct]
  | cons y ys ih =>
    by_cases hxy : x = y
    · simp [distinct, hxy]
    · simp [distinct, hxy, ih]

/-- Every message of a list is among its distinct messages. -/
theorem mem_aggregateMessages {ε : Type} (msg : ε → String) (es : List ε) (e : ε)
    (h : e ∈ es) : msg e ∈ errors.aggregateMessages msg es := by
  unfold errors.aggregateMessages
  exact (mem_distinct _ _).2 (List.mem_map_of_mem msg h)

/-- The aggregate of a slice of non-nil errors holds all of them. -/
theorem NewAggregate_map_some {ε : Type} (es : List ε) (h : es ≠ []) :
    errors.NewAggregate (es.map some) = some (.aggregate es) := by
  cases es with
  | nil => exact absurd rfl h
  | cons e rest => simp [errors.NewAggregate, List.filterMap_map]

/-- A non-empty slice of errors from `Validate` comes back as their
aggregate. -/
theorem validate_errors_aggregated {ε : Type} (a : App ε) (o : CliOptions ε)
    (w : World ε) (s : State) (errs : List (Option ε))
    (hc : completeErr o s.options = none) (hv : validateErrs o s.options = errs)
    (hn : 0 < errs.length) (hall : ∀ x ∈ errs, x ≠ none) :
    ∃ es : List ε, (applyOptionRules a o w s).2 = some (.aggregate es)
      ∧ es.map some = errs ∧ es.length = errs.length
      ∧ ∀ e ∈ es, w.msg e ∈ errors.aggregateMessages w.msg es := by
  have hes : (errs.filterMap id).map some = errs := by
    clear hv hn
    induction errs with
    | nil => rfl
    | cons x xs ih =>
      cases x with
      | none => exact absurd rfl (hall none (List.mem_cons_self _ _))
      | some e =>
        simp only [List.filterMap_cons, id, List.map_cons]
        rw [ih (fun y hy => hall y (List.mem_cons_of_mem _ hy))]
  refine ⟨errs.filterMap id, ?_, hes, ?_, fun e he => mem_aggregateMessages w.msg _ e he⟩
  · have hne : errs.filterMap id ≠ [] := by
      intro h0
      rw [h0] at hes
      rw [← hes] at hn
      simp at hn
    have hagg := NewAggregate_map_some (errs.filterMap id) hne
    rw [hes] at hagg
    have hlen : errs.length ≠ 0 := Nat.pos_iff_ne_zero.mp hn
    unfold validateErrs afterComplete at hv
    unfold completeErr at hc
    unfold applyOptionRules
    cases hC : o.Complete with
    | none =>
      rw [hC] at hv hc
      simp [hv, hlen, hagg]
    | some complete =>
      rw [hC] at hv hc
      simp only at hv hc
      simp [hc, hv, hlen, hagg]
  · rw [← congrArg List.length hes, List.length_map]

/-- C2: when `Complete` (if any) succeeds and `Validate` returns a sequence
of N > 0 errors, `applyOptionRules` returns a non-nil failure, the aggregate
whose entries are exactly the N errors in order, and the message of every
one of them is among the messages the aggregate reports. -/
theorem applyOptionRules_validate_errors {ε : Type} (a : App ε) (o : CliOptions ε)
    (w : World ε) (s : State) (errs : List (Option ε))
    (hc : completeErr o s.options = none) (hv : validateErrs o s.options = errs)
    (hn : 0 < errs.length) (hall : ∀ x ∈ errs, x ≠ none) :
    ∃ es : List ε, (applyOptionRules a o w s).2 = some (.aggregate es)
      ∧ es.map some = errs ∧ es.length = errs.length
      ∧ ∀ e ∈ es, w.msg e ∈ errors.aggregateMessages w.msg es :=
  validate_errors_aggregated a o w s errs hc hv hn hall

/-- C2 at an object whose `Validate` reports two errors. -/
theorem applyOptionRules_validate_errors_witness :
    ∃ es : List String,
      (applyOptionRules { basename := "test", name := "test" } twoFaults plainWorld {}).2
        = some (.aggregate es)
      ∧ es.map some = [some "host is empty", some "port out of range"]
      ∧ es.length = [some "host is empty", some "port out of range"].length
      ∧ ∀ e ∈ es, plainWorld.msg e ∈ errors.aggregateMessages plainWorld.msg es :=
  applyOptionRules_validate_errors { basename := "test", name := "test" } twoFaults plainWorld {}
    [some "host is empty", some "port out of range"] rfl rfl (by decide) (by decide)

/-! ## `runCommand`: lifecycle and callback -/

/-- The hooks of `applyOptionRules` never call the run callback. -/
theorem applyOptionRules_runFunc {ε : Type} (a : App ε) (o : CliOptions ε) (w : World ε)
    (s : State) :
    (applyOptionRules a o w s).1.trace.filter Event.isRunFunc
      = s.trace.filter Event.isRunFunc := by
  unfold applyOptionRules
  cases hC : o.Complete with
  | none =>
    simp only
    split
    · simp [List.filter_append, Event.isRunFunc]
    · split
      · split <;> simp [List.filter_append, Event.isRunFunc]
      · simp [List.filter_append, Event.isRunFunc]
  | some complete =>
    simp only
    cases hE : (complete s.options).2 with
    | some e => simp [List.filter_append, Event.isRunFunc]
    | none =>
      simp only
      split
      · simp [List.filter_append, Event.isRunFunc]
      · split
        · split <;> simp [List.filter_append, Event.isRunFunc]
        · simp [List.filter_append, Event.isRunFunc]

/-- A slice with an entry that is not nil has a non-nil aggregate. -/
theorem NewAggregate_of_mem {ε : Type} (errs : List (Option ε)) (e : ε) (h : some e ∈ errs) :
    ∃ err, errors.NewAggregate errs = some err := by
  have hlen : errs.length ≠ 0 := by
    intro h0
    rw [List.length_eq_zero.1 h0] at h
    simp at h
  have hmem : e ∈ errs.filterMap id := List.mem_filterMap.2 ⟨some e, h, rfl⟩
  have hlen2 : (errs.filterMap id).length ≠ 0 := by
    intro h0
    rw [List.length_eq_zero.1 h0] at hmem
    simp at hmem
  refine ⟨.aggregate (errs.filterMap id), ?_⟩
  simp only [errors.NewAggregate, hlen, hlen2, if_false]

/-- A lifecycle with an error to report makes `applyOptionRules` return an
error. -/
theorem applyOptionRules_fails {ε : Type} (a : App ε) (o : CliOptions ε) (w : World ε)
    (s : State) (h : LifecycleReports o s.options) :
    ∃ err, (applyOptionRules a o w s).2 = some err := by
  rcases h with h | ⟨hc, e, hv⟩
  · unfold completeErr at h
    cases hC : o.Complete with
    | none => rw [hC] at h; exact absurd rfl h
    | some complete =>
      rw [hC] at h
      cases hE : (complete s.options).2 with
      | none => exact absurd hE h
      | some e => exact ⟨.err e, (complete_error_returned a o w s complete e hC hE)⟩
  · obtain ⟨err, hagg⟩ := NewAggregate_of_mem _ e hv
    have hlen : (validateErrs o s.options).length ≠ 0 := by
      intro h0
      rw [List.length_eq_zero.1 h0] at hv
      simp at hv
    refine ⟨err, ?_⟩
    unfold validateErrs afterComplete at hagg hlen
    unfold completeErr at hc
    unfold applyOptionRules
    cases hC : o.Complete with
    | none =>
      rw [hC] at hagg hlen
      simp only at hagg hlen
      simp [hlen, hagg]
    | some complete =>
      rw [hC] at hagg hlen hc
      simp only at hagg hlen hc
      simp [hc, hlen, hagg]

/-- The diagnostics of `printConfig` leave the options as they are. -/
@[simp] theorem printConfig_options {ε : Type} (w : World ε) (ks : List String) (s : State) :
    (printConfig w ks s).options = s.options := by
  unfold printConfig
  split <;> simp

/-- The diagnostics of `printConfig` leave the store as it is. -/
@[simp] theorem printConfig_viper {ε : Type} (w : World ε) (ks : List String) (s : State) :
    (printConfig w ks s).viper = s.viper := by
  unfold printConfig
  split <;> simp

/-- The diagnostics of `printConfig` call no callback. -/
@[simp] theorem printConfig_runFunc {ε : Type} (w : World ε) (ks : List String) (s : State) :
    (printConfig w ks s).trace.filter Event.isRunFunc = s.trace.filter Event.isRunFunc := by
  unfold printConfig
  split <;> simp [List.filter_append, Event.isRunFunc]

/-- A failing lifecycle, read off a result of `applyOptionRules`. -/
theorem lifecycle_failure_result {ε : Type} (a : App ε) (o : CliOptions ε) (w : World ε)
    (s s1 : State) (r : Option (GoError ε)) (h : applyOptionRules a o w s = (s1, r))
    (hf : LifecycleReports o s.options) : r ≠ none := by
  obtain ⟨err, he⟩ := applyOptionRules_fails a o w s hf
  rw [h] at he
  simp only at he
  rw [he]
  simp

/-- No callback, read off a result of `applyOptionRules`. -/
theorem lifecycle_runFunc_result {ε : Type} (a : App ε) (o : CliOptions ε) (w : World ε)
    (s s1 : State) (r : Option (GoError ε)) (h : applyOptionRules a o w s = (s1, r)) :
    s1.trace.filter Event.isRunFunc = s.trace.filter Event.isRunFunc := by
  have := applyOptionRules_runFunc a o w s
  rw [h] at this
  exact this

/-- With no version display pending, the first statement of `runCommand`
returns. -/
theorem version_passes {ε : Type} (a : App ε) (w : World ε) (s : State)
    (hv : a.noVersion = true ∨ w.versionRequest = none) :
    (if !a.noVersion then PrintAndExitIfRequested w s else (s, Exec.ret ()))
      = (s, Exec.ret ()) := by
  rcases hv with h | h <;> simp [h, PrintAndExitIfRequested]

/-- A succeeding lifecycle makes `applyOptionRules` return nil. -/
theorem lifecycle_success_result {ε : Type} (a : App ε) (o : CliOptions ε) (w : World ε)
    (s s1 : State) (r : Option (GoError ε)) (h : applyOptionRules a o w s = (s1, r))
    (hs : LifecycleSucceeds o s.options) : r = none := by
  have h2 : (applyOptionRules a o w s).2 = r := by rw [h]
  rw [← h2]
  obtain ⟨hc, hagg⟩ := hs
  unfold validateErrs afterComplete at hagg
  unfold completeErr at hc
  unfold applyOptionRules
  cases hC : o.Complete with
  | none =>
    rw [hC] at hagg hc
    simp only at hagg
    simp only [State.emit_options]
    split
    · exact hagg
    · split
      · split <;> rfl
      · rfl
  | some complete =>
    rw [hC] at hagg hc
    simp only at hagg hc
    simp only [hc, State.emit_options]
    split
    · exact hagg
    · split
      · split <;> rfl
      · rfl

/-- For an app with an options object and no version display pending,
when the lifecycle has an error to report on the resolved options
(`Complete` returns an error, or `Validate` returns a sequence with an entry
that is not nil), `runCommand` returns a failure and adds no call of the run
callback to the trace. -/
theorem runCommand_lifecycle_failure {ε : Type} (a : App ε) (o : CliOptions ε) (w : World ε)
    (s : State) (ho : a.options = some o)
    (hv : a.noVersion = true ∨ w.versionRequest = none)
    (hf : LifecycleReports o (resolvedFields a w s)) :
    (∃ err, (runCommand a w s).2 = .ret (some err))
      ∧ (runCommand a w s).1.trace.filter Event.isRunFunc
          = s.trace.filter Event.isRunFunc := by
  unfold runCommand
  rw [version_passes a w s hv]
  unfold resolvedFields at hf
  simp only
  cases hnc : a.noConfig
  · simp only [hnc, Bool.not_false, if_true] at hf ⊢
    simp only [Viper.BindPFlags, State.emit_viper, State.emit_options] at hf ⊢
    have hopt : (if (!a.silence) = true then
        printConfig w s.viper.AllKeys (s.emit (Event.stdout (w.progressMessage
          ++ " Config file used: `" ++ s.viper.ConfigFileUsed ++ "`\n"))) else s).options
        = s.options := by
      cases a.silence <;> simp
    have hvip : (if (!a.silence) = true then
        printConfig w s.viper.AllKeys (s.emit (Event.stdout (w.progressMessage
          ++ " Config file used: `" ++ s.viper.ConfigFileUsed ++ "`\n"))) else s).viper
        = s.viper := by
      cases a.silence <;> simp
    simp only [hopt, hvip, ho] at hf ⊢
    cases hU : Unmarshal (s.viper.bindAll w.flags) w.environ (some o) s.options with
    | error err => exact ⟨⟨err, rfl⟩, by cases a.silence <;>
        simp [List.filter_append, Event.isRunFunc]⟩
    | ok fields =>
      simp only [hU] at hf ⊢
      refine ⟨?_, ?_⟩
      · split
        · exact ⟨_, rfl⟩
        · rename_i heq
          refine absurd rfl (lifecycle_failure_result a o w _ _ _ heq ?_)
          cases a.silence <;> cases a.noVersion <;> simpa [printWorkingDir] using hf
      · split
        · rename_i heq
          rw [lifecycle_runFunc_result a o w _ _ _ heq]
          cases a.silence <;> cases a.noVersion <;>
            simp [printWorkingDir, List.filter_append, Event.isRunFunc]
        · rename_i heq
          refine absurd rfl (lifecycle_failure_result a o w _ _ _ heq ?_)
          cases a.silence <;> cases a.noVersion <;> simpa [printWorkingDir] using hf
  · simp only [hnc, Bool.not_true] at hf ⊢
    simp only [Bool.false_eq_true, if_false, ho] at hf ⊢
    refine ⟨?_, ?_⟩
    · split
      · exact ⟨_, rfl⟩
      · rename_i heq
        refine absurd rfl (lifecycle_failure_result a o w _ _ _ heq ?_)
        cases a.silence <;> cases a.noVersion <;> simpa [printWorkingDir] using hf
    · split
      · rename_i heq
        rw [lifecycle_runFunc_result a o w _ _ _ heq]
        cases a.silence <;> cases a.noVersion <;>
          simp [printWorkingDir, List.filter_append, Event.isRunFunc]
      · rename_i heq
        refine absurd rfl (lifecycle_failure_result a o w _ _ _ heq ?_)
        cases a.silence <;> cases a.noVersion <;> simpa [printWorkingDir] using hf

/-- The spy app, whose `Complete` fails: a failure and no call of the
callback. -/
theorem runCommand_lifecycle_failure_witness :
    (∃ err, (runCommand spyApp plainWorld {}).2 = .ret (some err))
      ∧ (runCommand spyApp plainWorld {}).1.trace.filter Event.isRunFunc
          = ([] : List Event).filter Event.isRunFunc :=
  runCommand_lifecycle_failure spyApp spyComplete plainWorld {} rfl (Or.inl rfl)
    (Or.inl (by decide))

/-- C5, the code at the input where it departs from the claim: the
options object whose `Validate` returns the slice of one nil entry makes the
lifecycle fail in the sense of the claim (a non-empty sequence, the test
`len(errs) != 0` of `applyOptionRules`), yet `runCommand` returns nil and
calls the run callback. -/
theorem lifecycle_nil_entry :
    LifecycleFails nilFault (resolvedFields nilFaultApp plainWorld {})
      ∧ validateErrs nilFault (resolvedFields nilFaultApp plainWorld {}) = [none]
      ∧ (applyOptionRules nilFaultApp nilFault plainWorld {}).2 = none
      ∧ (runCommand nilFaultApp plainWorld {}).2 = .ret none
      ∧ (runCommand nilFaultApp plainWorld {}).1.trace.filter Event.isRunFunc
          = [Event.runFunc "test"] :=
  ⟨Or.inr ⟨rfl, by decide⟩, rfl, by decide, by decide, by decide⟩

/-- C6: when no version display is pending, the resolution step gives no
error and the lifecycle hooks (if there is an options object) succeed on the
resolved options, `runCommand` returns what the run callback returns on
the base name of the app, and nil when there is no callback; the callback
is called once, with the base name, as the last event. -/
theorem runCommand_returns_callback {ε : Type} (a : App ε) (w : World ε) (s : State)
    (hv : a.noVersion = true ∨ w.versionRequest = none)
    (hr : resolveErr a w s = none)
    (hl : ∀ o, a.options = some o → LifecycleSucceeds o (resolvedFields a w s)) :
    (runCommand a w s).2
        = .ret ((a.runFunc.bind (fun run => run a.basename)).map GoError.err)
      ∧ (runCommand a w s).1.trace.filter Event.isRunFunc
          = s.trace.filter Event.isRunFunc
            ++ (if a.runFunc.isSome then [Event.runFunc a.basename] else []) := by
  unfold runCommand
  rw [version_passes a w s hv]
  unfold resolvedFields at hl
  unfold resolveErr at hr
  simp only
  cases hnc : a.noConfig
  · simp only [hnc, Bool.not_false, if_true] at hl hr ⊢
    simp only [Viper.BindPFlags, State.emit_viper, State.emit_options] at hl hr ⊢
    have hopt : (if (!a.silence) = true then
        printConfig w s.viper.AllKeys (s.emit (Event.stdout (w.progressMessage
          ++ " Config file used: `" ++ s.viper.ConfigFileUsed ++ "`\n"))) else s).options
        = s.options := by
      cases a.silence <;> simp
    have hvip : (if (!a.silence) = true then
        printConfig w s.viper.AllKeys (s.emit (Event.stdout (w.progressMessage
          ++ " Config file used: `" ++ s.viper.ConfigFileUsed ++ "`\n"))) else s).viper
        = s.viper := by
      cases a.silence <;> simp
    simp only [hopt, hvip] at hl hr ⊢
    cases hU : Unmarshal (s.viper.bindAll w.flags) w.environ a.options s.options with
    | error err => simp [hU] at hr
    | ok fields =>
      simp only [hU] at hl ⊢
      cases hO : a.options with
      | none =>
        simp only
        cases a.runFunc <;> cases a.silence <;> cases a.noVersion <;>
          simp [printWorkingDir, List.filter_append, Event.isRunFunc]
      | some o =>
        have hs := hl o hO
        simp only
        refine ⟨?_, ?_⟩
        · split
          · rename_i heq
            refine absurd (lifecycle_success_result a o w _ _ _ heq ?_) (by simp)
            cases a.silence <;> cases a.noVersion <;> simpa [printWorkingDir] using hs
          · cases a.runFunc <;> rfl
        · split
          · rename_i heq
            refine absurd (lifecycle_success_result a o w _ _ _ heq ?_) (by simp)
            cases a.silence <;> cases a.noVersion <;> simpa [printWorkingDir] using hs
          · rename_i heq
            have ht := lifecycle_runFunc_result a o w _ _ _ heq
            cases a.runFunc <;> simp only [State.emit_trace, List.filter_append, ht] <;>
              cases a.silence <;> cases a.noVersion <;>
              simp [printWorkingDir, List.filter_append, Event.isRunFunc]
  · simp only [hnc, Bool.not_true] at hl hr ⊢
    simp only [Bool.false_eq_true, if_false] at hl ⊢
    cases hO : a.options with
    | none =>
      simp only
      cases a.runFunc <;> cases a.silence <;> cases a.noVersion <;>
        simp [printWorkingDir, List.filter_append, Event.isRunFunc]
    | some o =>
      have hs := hl o hO
      simp only
      refine ⟨?_, ?_⟩
      · split
        · rename_i heq
          refine absurd (lifecycle_success_result a o w _ _ _ heq ?_) (by simp)
          cases a.silence <;> cases a.noVersion <;> simpa [printWorkingDir] using hs
        · cases a.runFunc <;> rfl
      · split
        · rename_i heq
          refine absurd (lifecycle_success_result a o w _ _ _ heq ?_) (by simp)
          cases a.silence <;> cases a.noVersion <;> simpa [printWorkingDir] using hs
        · rename_i heq
          have ht := lifecycle_runFunc_result a o w _ _ _ heq
          cases a.runFunc <;> simp only [State.emit_trace, List.filter_append, ht] <;>
            cases a.silence <;> cases a.noVersion <;>
            simp [printWorkingDir, List.filter_append, Event.isRunFunc]

/-- C6 at an app whose callback fails: the error comes back unchanged. -/
theorem runCommand_returns_callback_witness :
    (runCommand failingRun plainWorld {}).2
        = .ret ((failingRun.runFunc.bind (fun run => run failingRun.basename)).map GoError.err)
      ∧ (runCommand failingRun plainWorld {}).1.trace.filter Event.isRunFunc
          = ([] : List Event).filter Event.isRunFunc
            ++ (if failingRun.runFunc.isSome then [Event.runFunc failingRun.basename] else []) :=
  runCommand_returns_callback failingRun plainWorld {} (Or.inl rfl) (by decide)
    (fun o ho => by
      have h : o = redisOptions := by
        have h2 : some redisOptions = some o := ho
        exact (Option.some.inj h2).symm
      subst h
      exact ⟨rfl, rfl⟩)

/-! ## Case mapping of runes -/

/-- A found entry of an association list is one of its entries. -/
theorem mem_of_lookup {α β : Type} [BEq α] [LawfulBEq α] (l : List (α × β)) (a : α) (b : β)
    (h : l.lookup a = some b) : (a, b) ∈ l := by
  induction l with
  | nil => simp at h
  | cons p rest ih =>
    obtain ⟨x, y⟩ := p
    by_cases hx : a = x
    · subst hx
      simp [List.lookup] at h
      simp [h]
    · have hb : (a == x) = false := by simpa using hx
      simp [List.lookup, hb] at h
      exact List.mem_cons_of_mem _ (ih h)

/-- A rune is its own upper-case form or a lower-case letter of the table. -/
theorem toUpperRune_cases (c : Char) :
    strings.toUpperRune c = c
      ∨ (c, strings.toUpperRune c) ∈ strings.lowerLetters.zip strings.upperLetters := by
  unfold strings.toUpperRune
  cases h : (strings.lowerLetters.zip strings.upperLetters).lookup c with
  | none => exact Or.inl rfl
  | some u => exact Or.inr (mem_of_lookup _ c u h)

/-- A rune is its own lower-case form or a capital of the table. -/
theorem toLowerRune_cases (c : Char) :
    strings.toLowerRune c = c
      ∨ (c, strings.toLowerRune c) ∈ strings.upperLetters.zip strings.lowerLetters := by
  unfold strings.toLowerRune
  cases h : (strings.upperLetters.zip strings.lowerLetters).lookup c with
  | none => exact Or.inl rfl
  | some u => exact Or.inr (mem_of_lookup _ c u h)

/-- Lower-casing twice is lower-casing once. -/
theorem toLowerRune_idem (c : Char) :
    strings.toLowerRune (strings.toLowerRune c) = strings.toLowerRune c := by
  rcases toLowerRune_cases c with h | h
  · rw [h, h]
  · have key : ∀ p ∈ strings.upperLetters.zip strings.lowerLetters,
        strings.toLowerRune p.2 = p.2 := by decide
    exact key _ h

/-- Upper-casing the lower-case form is upper-casing. -/
theorem toUpperRune_toLowerRune (c : Char) :
    strings.toUpperRune (strings.toLowerRune c) = strings.toUpperRune c := by
  rcases toLowerRune_cases c with h | h
  · rw [h]
  · have key : ∀ p ∈ strings.upperLetters.zip strings.lowerLetters,
        strings.toUpperRune p.2 = strings.toUpperRune p.1 := by decide
    exact key _ h

/-- Upper-casing twice is upper-casing once. -/
theorem toUpperRune_idem (c : Char) :
    strings.toUpperRune (strings.toUpperRune c) = strings.toUpperRune c := by
  rcases toUpperRune_cases c with h | h
  · rw [h, h]
  · have key : ∀ p ∈ strings.lowerLetters.zip strings.upperLetters,
        strings.toUpperRune p.2 = p.2 := by decide
    exact key _ h

/-- The upper-case form of a rune is a dot only for the dot. -/
theorem toUpperRune_eq_dot (c : Char) (h : strings.toUpperRune c = '.') : c = '.' := by
  rcases toUpperRune_cases c with h1 | h1
  · rw [← h1, h]
  · have key : ∀ p ∈ strings.lowerLetters.zip strings.upperLetters, p.2 ≠ '.' := by decide
    exact absurd h (key _ h1)

/-- `ToLower` twice is `ToLower` once. -/
theorem ToLower_idem (s : String) : strings.ToLower (strings.ToLower s) = strings.ToLower s := by
  unfold strings.ToLower
  simp [List.map_map, Function.comp_def, toLowerRune_idem]

/-! ## Environment variable names -/

/-- The two replacement steps on an upper-cased rune of the base name come
to the replacer on that rune. -/
theorem replacer_prefix_rune (c : Char) :
    strings.replacerRune [('.', '_'), ('-', '_')]
        (strings.toUpperRune (strings.replaceRune '-' '_' (strings.toUpperRune c)))
      = strings.replacerRune [('.', '_'), ('-', '_')] (strings.toUpperRune c) := by
  unfold strings.replaceRune
  by_cases h : strings.toUpperRune c = '-'
  · rw [if_pos h, h]
    decide
  · rw [if_neg h, toUpperRune_idem]

/-- Without a dot the replacer does on an upper-cased rune what the
replacement of `-` does. -/
theorem replacer_no_dot_rune (c : Char) (h : c ≠ '.') :
    strings.replacerRune [('.', '_'), ('-', '_')] (strings.toUpperRune c)
      = strings.replaceRune '-' '_' (strings.toUpperRune c) := by
  have hd : strings.toUpperRune c ≠ '.' := fun h2 => h (toUpperRune_eq_dot c h2)
  simp [strings.replacerRune, strings.replaceRune, hd]

/-- The variable consulted for a key, for a non-empty base name: the
replacer acts on the prefix as on the key. -/
theorem envVar_nonempty (b k : String) (hb : b ≠ "") :
    envVar b k
      = strings.Replacer.Replace [('.', '_'), ('-', '_')] (strings.ToUpper b) ++ "_"
        ++ strings.Replacer.Replace [('.', '_'), ('-', '_')] (strings.ToUpper k) := by
  have hp : strings.ReplaceAll (strings.ToUpper b) '-' '_' ≠ "" := by
    intro h
    apply hb
    have hd := congrArg String.data h
    simp [strings.ReplaceAll, strings.ToUpper] at hd
    exact String.ext hd
  have hv : addConfigFlag b {} =
      { automaticEnvApplied := true,
        envPrefix := strings.ReplaceAll (strings.ToUpper b) '-' '_',
        envKeyReplacer := [('.', '_'), ('-', '_')] } := by
    simp only [addConfigFlag, Viper.AutomaticEnv, Viper.SetEnvPrefix, Viper.SetEnvKeyReplacer,
      if_pos hp]
  unfold envVar
  simp only [hv, Viper.envName, Viper.mergeWithEnvPrefix, if_pos hp]
  apply String.ext
  simp only [strings.Replacer.Replace, strings.ToUpper, strings.ToLower, strings.ReplaceAll,
    String.data_append, List.map_append, List.map_map, Function.comp_def,
    replacer_prefix_rune, toUpperRune_toLowerRune]
  rfl

/-- The variable consulted for a key when the base name is empty: no prefix
and no underscore before the key. -/
theorem envVar_empty (k : String) :
    envVar "" k = strings.Replacer.Replace [('.', '_'), ('-', '_')] (strings.ToUpper k) := by
  have hv : addConfigFlag "" {} =
      { automaticEnvApplied := true, envKeyReplacer := [('.', '_'), ('-', '_')] } := by
    decide
  unfold envVar
  simp only [hv, Viper.envName, Viper.mergeWithEnvPrefix]
  apply String.ext
  simp [strings.Replacer.Replace, strings.ToUpper, strings.ToLower, List.map_map,
    Function.comp_def, toUpperRune_toLowerRune]

/-- For a base name without a dot the replacer gives the prefix of the
claim. -/
theorem replacer_no_dot (b : String) (hd : '.' ∉ b.data) :
    strings.Replacer.Replace [('.', '_'), ('-', '_')] (strings.ToUpper b)
      = strings.ReplaceAll (strings.ToUpper b) '-' '_' := by
  apply String.ext
  simp only [strings.Replacer.Replace, strings.ToUpper, strings.ReplaceAll, List.map_map]
  apply List.map_congr_left
  intro c hc
  exact replacer_no_dot_rune c (fun h => hd (h ▸ hc))

/-- C7, the claim refuted: for the base name `my.app` the variable consulted
for the key `x` is `MY_APP_X`, not `MY.APP_X`; for the empty base name it is
`X`, not `_X`. -/
theorem envVar_counterexample :
    envVar "my.app" "x" = "MY_APP_X" ∧ envVarSpec "my.app" "x" = "MY.APP_X"
      ∧ envVar "my.app" "x" ≠ envVarSpec "my.app" "x"
      ∧ envVar "" "x" = "X" ∧ envVarSpec "" "x" = "_X" := by
  decide

/-- The upper-case form of an ASCII rune is an ASCII rune. -/
theorem toUpperRune_ascii (c : Char) (h : c.toNat < 128) : (strings.toUpperRune c).toNat < 128 := by
  rcases toUpperRune_cases c with h1 | h1
  · rw [h1]
    exact h
  · have key : ∀ p ∈ strings.lowerLetters.zip strings.upperLetters, p.2.toNat < 128 := by
      decide
    exact key _ h1

/-- The replacer of `addConfigFlag` leaves an ASCII rune ASCII. -/
theorem replacerRune_ascii (c : Char) (h : c.toNat < 128) :
    (strings.replacerRune [('.', '_'), ('-', '_')] c).toNat < 128 := by
  unfold strings.replacerRune strings.replacerRune strings.replacerRune
  split
  · decide
  · split
    · decide
    · exact h

/-- The replacer on the upper-case form of an ASCII string gives an ASCII
string. -/
theorem Replace_ToUpper_ascii (x : String) (h : strings.isASCII x = true) :
    strings.isASCII (strings.Replacer.Replace [('.', '_'), ('-', '_')] (strings.ToUpper x))
      = true := by
  unfold strings.isASCII at h ⊢
  rw [List.all_eq_true] at h ⊢
  intro c hc
  simp only [strings.Replacer.Replace, strings.ToUpper, List.map_map, List.mem_map,
    Function.comp] at hc
  obtain ⟨d, hd, rfl⟩ := hc
  have := h d hd
  simp only [decide_eq_true_eq] at this ⊢
  exact replacerRune_ascii _ (toUpperRune_ascii d this)

/-- The variable consulted for an ASCII key in an app of non-empty ASCII
base name is an ASCII string. -/
theorem envVar_ascii (b k : String) (hb : b ≠ "") (hab : strings.isASCII b = true)
    (hak : strings.isASCII k = true) : strings.isASCII (envVar b k) = true := by
  rw [envVar_nonempty b k hb]
  have h1 := Replace_ToUpper_ascii b hab
  have h2 := Replace_ToUpper_ascii k hak
  unfold strings.isASCII at h1 h2 ⊢
  simp only [String.data_append, List.all_append, h1, h2, Bool.true_and, Bool.and_true]
  decide

/-- C7 as amended: for a non-empty base name `b` and a key `k`, both of
ASCII runes, the variable consulted for `k` (the name `getEnv` looks up in
the environment) is `P_K`, where `K` is `k` in upper case with `.` and `-`
replaced by `_` and `P` is `b` in upper case with `.` and `-` replaced by
`_`; it is an ASCII string; when `b` has no dot this is the name of the
claim; for the empty base name the variable is `K` alone. -/
theorem envVar_name (b k : String) (hb : b ≠ "") (hab : strings.isASCII b = true)
    (hak : strings.isASCII k = true) :
    envVar b k
        = strings.Replacer.Replace [('.', '_'), ('-', '_')] (strings.ToUpper b) ++ "_"
          ++ strings.Replacer.Replace [('.', '_'), ('-', '_')] (strings.ToUpper k)
      ∧ strings.isASCII (envVar b k) = true
      ∧ ('.' ∉ b.data → envVar b k = envVarSpec b k)
      ∧ envVar "" k = strings.Replacer.Replace [('.', '_'), ('-', '_')] (strings.ToUpper k)
      ∧ (∀ environ : Fields,
          (addConfigFlag b {}).getEnv environ
              ((addConfigFlag b {}).mergeWithEnvPrefix (strings.ToLower k))
            = match environ.get (envVar b k) with
              | some val => if val ≠ "" then some val else none
              | none => none) := by
  refine ⟨envVar_nonempty b k hb, envVar_ascii b k hb hab hak, fun hd => ?_, envVar_empty k,
    fun _ => rfl⟩
  rw [envVar_nonempty b k hb, replacer_no_dot b hd]
  rfl

/-- C7 as amended, at the base name `db-apiserver` and the key
`redis.host`. -/
theorem envVar_name_witness :
    "db-apiserver" ≠ ""
      ∧ envVar "db-apiserver" "redis.host" = "DB_APISERVER_REDIS_HOST"
      ∧ envVar "db-apiserver" "redis.host" = envVarSpec "db-apiserver" "redis.host" :=
  ⟨by decide,
    (envVar_name "db-apiserver" "redis.host" (by decide) (by decide) (by decide)).1.trans
      (by decide),
    (envVar_name "db-apiserver" "redis.host" (by decide) (by decide) (by decide)).2.2.1
      (by decide)⟩

/-! ## Discovery of the configuration file -/

/-- A split has at least one piece. -/
theorem splitRunes_ne_nil (sep : Char) (l : List Char) : strings.splitRunes sep l ≠ [] := by
  induction l with
  | nil => simp [strings.splitRunes]
  | cons c cs ih =>
    unfold strings.splitRunes
    split
    · simp
    · split <;> simp

/-- The first piece of a split is the text before the first separator. -/
theorem splitRunes_head (sep : Char) (l : List Char) :
    (strings.splitRunes sep l).head? = some (l.takeWhile (fun c => c ≠ sep)) := by
  induction l with
  | nil => simp [strings.splitRunes]
  | cons c cs ih =>
    unfold strings.splitRunes
    by_cases h : c = sep
    · simp [h]
    · rw [if_neg h]
      cases hs : strings.splitRunes sep cs with
      | nil => exact absurd hs (splitRunes_ne_nil sep cs)
      | cons x xs =>
        rw [hs] at ih
        simp at ih
        simp [h, ih]

/-- A split has more than one piece exactly when the separator occurs. -/
theorem splitRunes_length (sep : Char) (l : List Char) :
    1 < (strings.splitRunes sep l).length ↔ sep ∈ l := by
  induction l with
  | nil => simp [strings.splitRunes]
  | cons c cs ih =>
    unfold strings.splitRunes
    by_cases h : c = sep
    · have hpos : 0 < (strings.splitRunes sep cs).length :=
        List.length_pos.2 (splitRunes_ne_nil sep cs)
      simp [h, hpos]
    · rw [if_neg h]
      cases hs : strings.splitRunes sep cs with
      | nil => exact absurd hs (splitRunes_ne_nil sep cs)
      | cons x xs =>
        rw [hs] at ih
        have hne : ¬ sep = c := fun e => h e.symm
        simpa [hne] using ih

/-- Without the separator a split is the one piece. -/
theorem splitRunes_of_not_mem (sep : Char) (l : List Char) (h : sep ∉ l) :
    strings.splitRunes sep l = [l] := by
  induction l with
  | nil => rfl
  | cons c cs ih =>
    have hc : ¬ c = sep := fun e => h (e ▸ List.mem_cons_self _ _)
    have hcs : sep ∉ cs := fun hm => h (List.mem_cons_of_mem _ hm)
    unfold strings.splitRunes
    rw [if_neg hc, ih hcs]

/-- The join of `/etc` and a plain name is the name under `/etc`. -/
theorem Join_etc_plain (g : String) (hg : PlainName g) : filepath.Join "/etc" g = "/etc/" ++ g := by
  obtain ⟨h0, h1, h2, h3⟩ := hg
  have hsplit : strings.Split ("/etc" ++ "/" ++ g) '/' = ["", "etc", g] := by
    unfold strings.Split
    have hd : ("/etc" ++ "/" ++ g).data = '/' :: 'e' :: 't' :: 'c' :: '/' :: g.data := by
      simp [String.data_append]
    rw [hd]
    simp [strings.splitRunes, splitRunes_of_not_mem '/' g.data h3]
  have hne : ("/etc" ++ "/" ++ g) ≠ "" := by
    intro h
    have := congrArg String.data h
    simp [String.data_append] at this
  have hroot : ("/etc" ++ "/" ++ g).data.head? = some '/' := by
    simp [String.data_append]
  unfold filepath.Join filepath.Clean
  simp only [hsplit, hne, hroot]
  simp [filepath.cleanStep, h0, h1, h2, strings.Join]
  apply String.ext
  simp [String.intercalate, String.intercalate.go, String.data_append]

/-- The join of `/etc` and any name is a rooted path. -/
theorem Join_etc_rooted (g : String) : ∃ body : String, filepath.Join "/etc" g = "/" ++ body := by
  have hne : ("/etc" ++ "/" ++ g) ≠ "" := by
    intro h
    have := congrArg String.data h
    simp [String.data_append] at this
  have hroot : ("/etc" ++ "/" ++ g).data.head? = some '/' := by
    simp [String.data_append]
  unfold filepath.Join filepath.Clean
  simp only [hne, hroot]
  simp

/-- The join of `/etc` and any name is a path `AddConfigPath` appends after
the working directory. -/
theorem Join_etc_fresh (g : String) :
    filepath.Join "/etc" g ≠ "" ∧ filepath.Join "/etc" g ∉ ["."] := by
  obtain ⟨body, hb⟩ := Join_etc_rooted g
  rw [hb]
  constructor
  · intro h
    have := congrArg String.data h
    simp [String.data_append] at this
  · intro h
    have h2 : "/" ++ body = "." := by simpa using h
    have := congrArg String.data h2
    simp [String.data_append] at this

/-- The pieces of a base name split at `-`: more than one exactly when it
has a `-`, the first being the group. -/
theorem Split_basename (b : String) :
    (1 < (strings.Split b '-').length ↔ '-' ∈ b.data)
      ∧ (strings.Split b '-').headD "" = group b := by
  unfold strings.Split group
  constructor
  · rw [List.length_map]
    exact splitRunes_length '-' b.data
  · have h := splitRunes_head '-' b.data
    cases hs : strings.splitRunes '-' b.data with
    | nil => exact absurd hs (splitRunes_ne_nil '-' b.data)
    | cons x xs =>
      rw [hs] at h
      simp at h
      simp [h]

/-- C8: from a store with no search path yet and with no explicit config
path, the directories `locateConfig` registers are the working directory
first, then the join of `/etc` and the group (the text of the base name
before its first `-`) exactly when the base name has a `-`; for a plain
group name that join is `/etc/<group>`; the file searched is named after the
base name. With an explicit path the file is that path and no directory is
registered. -/
theorem locateConfig_search (b : String) (v : Viper) (hv : v.configPaths = []) :
    (locateConfig b "" v).configPaths
        = "." :: (if '-' ∈ b.data then [filepath.Join "/etc" (group b)] else [])
      ∧ (PlainName (group b) → filepath.Join "/etc" (group b) = "/etc/" ++ group b)
      ∧ (b ≠ "" → (locateConfig b "" v).configName = b ∧ (locateConfig b "" v).configFile = "")
      ∧ (∀ cfg, cfg ≠ "" → (locateConfig b cfg v).configFile = cfg
          ∧ (locateConfig b cfg v).configPaths = []) := by
  obtain ⟨hlen, hhead⟩ := Split_basename b
  obtain ⟨hj1, hj2⟩ := Join_etc_fresh (group b)
  refine ⟨?_, Join_etc_plain (group b), ?_, ?_⟩
  · have hcp : ∀ (u : Viper) (n : String), (u.SetConfigName n).configPaths = u.configPaths := by
      intro u n
      unfold Viper.SetConfigName
      split <;> rfl
    have h0 : (v.AddConfigPath ".").configPaths = ["."] := by
      simp [Viper.AddConfigPath, hv]
    have hj3 : filepath.Join "/etc" (group b) ≠ "." := fun h => hj2 (by simp [h])
    unfold locateConfig
    simp only [ne_eq, not_true_eq_false, if_false, hhead, hcp]
    by_cases hd : '-' ∈ b.data
    · have h1 : (strings.Split b '-').length > 1 := hlen.2 hd
      simp only [h1, hd, if_true]
      simp [Viper.AddConfigPath, hv, hj1, hj3]
    · have h1 : ¬ (strings.Split b '-').length > 1 := fun h => hd (hlen.1 h)
      simp only [h1, hd, if_false]
      exact h0
  · intro hb
    unfold locateConfig
    simp [Viper.SetConfigName, hb]
  · intro cfg hc
    unfold locateConfig
    simp [Viper.SetConfigFile, hc, hv]

/-- C8 at the base name `db-apiserver`: the working directory, then
`/etc/db`. -/
theorem locateConfig_search_witness :
    (locateConfig "db-apiserver" "" (addConfigFlag "db-apiserver" {})).configPaths
        = [".", "/etc/db"]
      ∧ (locateConfig "api" "" (addConfigFlag "api" {})).configPaths = ["."]
      ∧ (locateConfig "db-apiserver" "/tmp/a.yaml" (addConfigFlag "db-apiserver" {})).configFile
        = "/tmp/a.yaml" :=
  ⟨(locateConfig_search "db-apiserver" (addConfigFlag "db-apiserver" {}) (by decide)).1.trans
      (by decide),
    (locateConfig_search "api" (addConfigFlag "api" {}) (by decide)).1.trans (by decide),
    ((locateConfig_search "db-apiserver" (addConfigFlag "db-apiserver" {}) (by decide)).2.2.2
      "/tmp/a.yaml" (by decide)).1⟩

/-! ## Precedence of the configuration sources -/

/-- Removing the bindings of another key leaves the binding of a key. -/
theorem find_filter_other (m : List (String × Flag)) (k k2 : String) (h : k2 ≠ k) :
    (m.filter (fun q => q.1 != k2)).find? (fun q => q.1 == k) = m.find? (fun q => q.1 == k) := by
  induction m with
  | nil => rfl
  | cons x xs ih =>
    by_cases hx : x.1 = k2
    · have hxk : ¬ x.1 = k := fun e => h (hx ▸ e)
      have h1 : (x.1 != k2) = false := by simp [hx]
      have h2 : (x.1 == k) = false := by simpa using hxk
      rw [List.filter_cons, List.find?_cons]
      simp only [h1, h2]
      exact ih
    · have h1 : (x.1 != k2) = true := by simpa using hx
      rw [List.filter_cons]
      simp only [h1, if_true]
      rw [List.find?_cons, List.find?_cons, ih]

/-- Binding flags of other keys leaves the binding of a key. -/
theorem foldl_bind_other (flags : List Flag) (m : List (String × Flag)) (k : String)
    (h : ∀ g ∈ flags, strings.ToLower g.Name ≠ k) :
    (flags.foldl Viper.bindFlagValue m).find? (fun q => q.1 == k)
      = m.find? (fun q => q.1 == k) := by
  induction flags generalizing m with
  | nil => rfl
  | cons g rest ih =>
    have hg : strings.ToLower g.Name ≠ k := h g (List.mem_cons_self _ _)
    rw [List.foldl_cons, ih _ (fun x hx => h x (List.mem_cons_of_mem _ hx))]
    unfold Viper.bindFlagValue
    have h2 : (strings.ToLower g.Name == k) = false := by simpa using hg
    rw [List.find?_cons]
    simp only [h2]
    exact find_filter_other m k _ hg

/-- A flag of the set that alone has its lower-case name is the flag bound
under that name. -/
theorem foldl_bind_self (flags : List Flag) (m : List (String × Flag)) (f : Flag)
    (hf : f ∈ flags)
    (hu : ∀ g ∈ flags, strings.ToLower g.Name = strings.ToLower f.Name → g = f) :
    (flags.foldl Viper.bindFlagValue m).find? (fun q => q.1 == strings.ToLower f.Name)
      = some (strings.ToLower f.Name, f) := by
  induction flags generalizing m with
  | nil => simp at hf
  | cons g rest ih =>
    rw [List.foldl_cons]
    by_cases hr : f ∈ rest
    · exact ih _ hr (fun x hx => hu x (List.mem_cons_of_mem _ hx))
    · have hgf : g = f := by
        rcases List.mem_cons.1 hf with h | h
        · exact h.symm
        · exact absurd h hr
      subst hgf
      rw [foldl_bind_other rest _ _ (fun x hx hk => hr ((hu x (List.mem_cons_of_mem _ hx) hk) ▸ hx))]
      unfold Viper.bindFlagValue
      rw [List.find?_cons]
      simp

/-- Lookup in a list of entries made key by key. -/
theorem get_filterMap (keys : List String) (g : String → Option (String × String))
    (hg : ∀ key p, g key = some p → p.1 = key) (k : String) :
    Fields.get (keys.filterMap g) k = if k ∈ keys then (g k).map Prod.snd else none := by
  induction keys with
  | nil => rfl
  | cons x xs ih =>
    unfold Fields.get at ih ⊢
    by_cases hx : x = k
    · subst hx
      cases hF : g x with
      | none =>
        rw [List.filterMap_cons_none hF, ih]
        simp [hF]
      | some p =>
        have hp : (p.1 == x) = true := by simpa using hg x p hF
        rw [List.filterMap_cons_some hF, List.find?_cons]
        simp [hp]
    · have hk : ¬ k = x := fun e => hx e.symm
      cases hF : g x with
      | none =>
        rw [List.filterMap_cons_none hF, ih]
        simp [hk]
      | some p =>
        have hp : (p.1 == k) = false := by
          have := hg x p hF
          simpa [this] using hx
        rw [List.filterMap_cons_some hF, List.find?_cons]
        simp only [hp]
        rw [ih]
        simp [hk]

/-- The entry of a key in the settings is its `Get`, when the key is known. -/
theorem settings_get (v : Viper) (environ : Fields) (k : String) :
    Fields.get (v.AllSettings environ) k = if k ∈ v.AllKeys then v.Get environ k else none := by
  unfold Viper.AllSettings
  rw [get_filterMap]
  · cases v.Get environ k <;> simp
  · intro key p hp
    cases hG : v.Get environ key with
    | none => simp [hG] at hp
    | some val =>
      simp [hG] at hp
      rw [← hp]

/-- The value `Unmarshal` leaves in a field: the entry of the settings, or
the old value. -/
theorem map_fields_get (fields settings : Fields) (k old : String)
    (h : Fields.get fields k = some old) :
    Fields.get (fields.map (fun p => (p.1, (settings.get p.1).getD p.2))) k
      = some ((settings.get k).getD old) := by
  unfold Fields.get at h ⊢
  induction fields with
  | nil => simp at h
  | cons x xs ih =>
    rw [List.map_cons, List.find?_cons]
    rw [List.find?_cons] at h
    by_cases hx : x.1 = k
    · have hb : (x.1 == k) = true := by simpa using hx
      simp only [hb, Option.map_some] at h ⊢
      have : x.2 = old := Option.some.inj h
      rw [this, hx]
      rfl
    · have hb : (x.1 == k) = false := by simpa using hx
      simp only [hb] at h ⊢
      exact ih h

/-- Hooks that leave the fields alone: `applyOptionRules` leaves the
options as they are. -/
theorem applyOptionRules_options {ε : Type} (a : App ε) (o : CliOptions ε) (w : World ε)
    (s : State) (hc : o.Complete = none) (hval : ∀ x, (o.Validate x).1 = x) :
    (applyOptionRules a o w s).1.options = s.options := by
  unfold applyOptionRules
  simp only [hc, hval]
  split
  · rfl
  · split
    · split <;> rfl
    · rfl

/-- Hooks that leave the fields alone, read off a result of
`applyOptionRules`. -/
theorem options_result {ε : Type} (a : App ε) (o : CliOptions ε) (w : World ε)
    (s s1 : State) (r : Option (GoError ε)) (h : applyOptionRules a o w s = (s1, r))
    (hc : o.Complete = none) (hval : ∀ x, (o.Validate x).1 = x) : s1.options = s.options := by
  have := applyOptionRules_options a o w s hc hval
  rw [h] at this
  exact this

/-- With hooks that leave the fields alone, the options `runCommand` leaves
are the resolved fields. -/
theorem runCommand_options {ε : Type} (a : App ε) (o : CliOptions ε) (w : World ε) (s : State)
    (ho : a.options = some o) (hv : a.noVersion = true ∨ w.versionRequest = none)
    (hc : o.Complete = none) (hval : ∀ x, (o.Validate x).1 = x) :
    (runCommand a w s).1.options = resolvedFields a w s := by
  unfold runCommand resolvedFields
  rw [version_passes a w s hv]
  simp only
  cases hnc : a.noConfig
  · simp only [Bool.not_false, if_true]
    simp only [Viper.BindPFlags, State.emit_viper, State.emit_options]
    have hopt : (if (!a.silence) = true then
        printConfig w s.viper.AllKeys (s.emit (Event.stdout (w.progressMessage
          ++ " Config file used: `" ++ s.viper.ConfigFileUsed ++ "`\n"))) else s).options
        = s.options := by
      cases a.silence <;> simp
    have hvip : (if (!a.silence) = true then
        printConfig w s.viper.AllKeys (s.emit (Event.stdout (w.progressMessage
          ++ " Config file used: `" ++ s.viper.ConfigFileUsed ++ "`\n"))) else s).viper
        = s.viper := by
      cases a.silence <;> simp
    simp only [hopt, hvip, ho]
    cases hU : Unmarshal (s.viper.bindAll w.flags) w.environ (some o) s.options with
    | error err => rfl
    | ok fields =>
      simp only
      split
      · rename_i heq
        rw [options_result a o w _ _ _ heq hc hval]
        cases a.silence <;> cases a.noVersion <;> simp [printWorkingDir]
      · rename_i heq
        have h := options_result a o w _ _ _ heq hc hval
        cases hR : a.runFunc <;> simp only [State.emit_options] <;> rw [h] <;>
          cases a.silence <;> cases a.noVersion <;> simp [printWorkingDir]
  · simp only [Bool.not_true, Bool.false_eq_true, if_false, ho]
    split
    · rename_i heq
      rw [options_result a o w _ _ _ heq hc hval]
      cases a.silence <;> cases a.noVersion <;> simp [printWorkingDir]
    · rename_i heq
      have h := options_result a o w _ _ _ heq hc hval
      cases hR : a.runFunc <;> simp only [State.emit_options] <;> rw [h] <;>
        cases a.silence <;> cases a.noVersion <;> simp [printWorkingDir]

/-- The value the resolution step leaves in a field: the entry of the
settings of the bound store, or the old value. -/
theorem resolved_get {ε : Type} (a : App ε) (o : CliOptions ε) (w : World ε) (s : State)
    (k old : String) (hnc : a.noConfig = false) (ho : a.options = some o)
    (hdec : resolveErr a w s = none) (hfield : s.options.get k = some old) :
    (resolvedFields a w s).get k
      = some ((if k ∈ (s.viper.bindAll w.flags).AllKeys
          then (s.viper.bindAll w.flags).Get w.environ k else none).getD old) := by
  unfold resolveErr at hdec
  unfold resolvedFields
  simp only [hnc, Bool.not_false, if_true, Viper.BindPFlags, ho] at hdec ⊢
  unfold Unmarshal at hdec ⊢
  simp only at hdec ⊢
  cases hd : o.decodeErr ((s.viper.bindAll w.flags).AllSettings w.environ) with
  | some e => simp [hd] at hdec
  | none =>
    simp only
    rw [map_fields_get _ _ k old hfield, settings_get]

/-- A changed flag bound under a key is what `find` gives for the key. -/
theorem find_changed_flag (v : Viper) (environ : Fields) (f : Flag)
    (hb : v.pflags.find? (fun q => q.1 == strings.ToLower f.Name)
      = some (strings.ToLower f.Name, f))
    (hch : f.Changed = true) :
    v.find environ (strings.ToLower f.Name) = some f.Value := by
  unfold Viper.find
  simp only [ToLower_idem, hb, Option.map_some]
  simp [Option.filter, hch]

/-- A key with a bound flag is among the keys of the store. -/
theorem mem_AllKeys_of_flag (v : Viper) (k : String) (f : Flag)
    (hb : v.pflags.find? (fun q => q.1 == k) = some (k, f)) : k ∈ v.AllKeys := by
  unfold Viper.AllKeys
  rw [mem_distinct]
  apply List.mem_append_left
  exact List.mem_map.2 ⟨(k, f), List.mem_of_find?_eq_some hb, rfl⟩

/-- C3: with the config feature on, a flag set on the command line (the
only flag of its lower-case name) decides the options field of its key:
after `BindPFlags` and a successful `Unmarshal` the field holds the value of
the flag, whatever the configuration file and the environment hold; and when
the hooks leave the fields alone this is the field `runCommand` leaves. -/
theorem flag_wins {ε : Type} (a : App ε) (o : CliOptions ε) (w : World ε) (s : State)
    (f : Flag) (old : String) (hnc : a.noConfig = false) (ho : a.options = some o)
    (hf : f ∈ w.flags) (hch : f.Changed = true)
    (hu : ∀ g ∈ w.flags, strings.ToLower g.Name = strings.ToLower f.Name → g = f)
    (hfield : s.options.get (strings.ToLower f.Name) = some old)
    (hdec : resolveErr a w s = none) :
    (resolvedFields a w s).get (strings.ToLower f.Name) = some f.Value
      ∧ ((a.noVersion = true ∨ w.versionRequest = none) → o.Complete = none
          → (∀ x, (o.Validate x).1 = x)
          → (runCommand a w s).1.options.get (strings.ToLower f.Name) = some f.Value) := by
  have hb := foldl_bind_self w.flags s.viper.pflags f hf hu
  have hres : (resolvedFields a w s).get (strings.ToLower f.Name) = some f.Value := by
    rw [resolved_get a o w s _ old hnc ho hdec hfield]
    have hmem : strings.ToLower f.Name ∈ (s.viper.bindAll w.flags).AllKeys :=
      mem_AllKeys_of_flag _ _ f hb
    rw [if_pos hmem]
    unfold Viper.Get
    rw [find_changed_flag _ _ f hb hch]
    rfl
  refine ⟨hres, fun hv hc hval => ?_⟩
  rw [runCommand_options a o w s ho hv hc hval]
  exact hres

/-- C3 with the key `redis.host` given by a flag, by the configuration file
and by the environment: the field holds the value of the flag. -/
theorem flag_wins_witness :
    (resolvedFields redisApp (fileAndEnv [hostFlag])
        (onInitialize "test" (fileAndEnv [hostFlag])
          (NewApp redisApp [("redis.host", "127.0.0.1")])).1).get "redis.host"
      = some "10.0.0.5" :=
  (flag_wins redisApp redisOptions (fileAndEnv [hostFlag])
    (onInitialize "test" (fileAndEnv [hostFlag]) (NewApp redisApp [("redis.host", "127.0.0.1")])).1
    hostFlag "127.0.0.1" rfl rfl (by decide) rfl (by decide) (by decide) (by decide)).1

/-- Every binding after `BindFlagValue` on a flag set was there before or
binds a flag of the set under its lower-case name. -/
theorem foldl_bind_mem (flags : List Flag) (m : List (String × Flag)) (q : String × Flag)
    (hq : q ∈ flags.foldl Viper.bindFlagValue m) :
    q ∈ m ∨ (q.2 ∈ flags ∧ q.1 = strings.ToLower q.2.Name) := by
  induction flags generalizing m with
  | nil => exact Or.inl hq
  | cons g rest ih =>
    rw [List.foldl_cons] at hq
    rcases ih _ hq with h | ⟨h1, h2⟩
    · unfold Viper.bindFlagValue at h
      rcases List.mem_cons.1 h with h | h
      · right
        rw [h]
        exact ⟨List.mem_cons_self _ _, rfl⟩
      · exact Or.inl (List.mem_of_mem_filter h)
    · exact Or.inr ⟨List.mem_cons_of_mem _ h1, h2⟩

/-- When no flag of the key is set on the command line, `find` passes the
flag step. -/
theorem no_changed_flag (v : Viper) (flags : List Flag) (k : String) (hprev : v.pflags = [])
    (hnot : ∀ g ∈ flags, strings.ToLower g.Name = k → g.Changed = false) :
    (((v.bindAll flags).pflags.find? (fun q => q.1 == k)).map Prod.snd).filter
        (fun f => f.Changed) = none := by
  cases hfind : (v.bindAll flags).pflags.find? (fun q => q.1 == k) with
  | none => rfl
  | some q =>
    have hmem : q ∈ flags.foldl Viper.bindFlagValue v.pflags := List.mem_of_find?_eq_some hfind
    have hkey : q.1 = k := by simpa using List.find?_some hfind
    rcases foldl_bind_mem flags v.pflags q hmem with h | ⟨h1, h2⟩
    · rw [hprev] at h
      simp at h
    · have hc := hnot q.2 h1 (h2 ▸ hkey)
      simp [Option.filter, hc]

/-- The name `getEnv` looks up for a lower-case key in a store set up for
the base name `b`. -/
theorem envName_eq_envVar (b : String) (v : Viper) (k : String) (hs : EnvSetUp b v)
    (hk : strings.ToLower k = k) : v.envName (v.mergeWithEnvPrefix k) = envVar b k := by
  obtain ⟨_, h2, h3⟩ := hs
  unfold envVar
  simp only [Viper.envName, Viper.mergeWithEnvPrefix, h2, h3, hk]

/-- What `find` gives for a lower-case key no flag sets on the command
line, in a store set up for the base name `b`: the non-empty value of the
environment variable of the key; failing that, when no parent path has an
environment value, the value of the configuration file. -/
theorem find_unset_flag (v : Viper) (flags : List Flag) (environ : Fields) (b k fv : String)
    (hk : strings.ToLower k = k) (hprev : v.pflags = [])
    (hnot : ∀ g ∈ flags, strings.ToLower g.Name = k → g.Changed = false)
    (hsf : (v.bindAll flags).shadowedInFlags k = false)
    (hs : EnvSetUp b v) (hfile : v.config.get k = some fv) :
    (∀ e, environ.get (envVar b k) = some e → e ≠ "" → (v.bindAll flags).find environ k = some e)
      ∧ ((environ.get (envVar b k) = none ∨ environ.get (envVar b k) = some "")
          → v.shadowedInAutoEnv environ k = false
          → (v.bindAll flags).find environ k = some fv) := by
  have hs2 : EnvSetUp b (v.bindAll flags) := hs
  have hname := envName_eq_envVar b (v.bindAll flags) k hs2 hk
  have hflag := no_changed_flag v flags k hprev hnot
  have hauto : (v.bindAll flags).automaticEnvApplied = true := hs.1
  have hcfg : (v.bindAll flags).config.get k = some fv := hfile
  constructor
  · intro e he hne
    unfold Viper.find
    simp only [hk, hflag, hsf, hauto, if_true, Bool.false_eq_true, if_false]
    simp [Viper.getEnv, hname, he, hne]
  · intro he hsae
    have hsae2 : (v.bindAll flags).shadowedInAutoEnv environ k = false := hsae
    have hget : (v.bindAll flags).getEnv environ ((v.bindAll flags).mergeWithEnvPrefix k)
        = none := by
      unfold Viper.getEnv
      rw [hname]
      rcases he with h | h <;> simp [h]
    unfold Viper.find
    simp only [hk, hflag, hsf, hauto, if_true, Bool.false_eq_true, if_false, hget, hsae2,
      Bool.and_false, hcfg]

/-- A key of the configuration file is among the keys of the store. -/
theorem mem_AllKeys_of_config (v : Viper) (k fv : String) (h : v.config.get k = some fv) :
    k ∈ v.AllKeys := by
  unfold Viper.AllKeys
  rw [mem_distinct]
  apply List.mem_append_right
  unfold Fields.get at h
  cases hf : v.config.find? (fun p => p.1 == k) with
  | none => simp [hf] at h
  | some q =>
    have hkey : q.1 = k := by simpa using List.find?_some hf
    exact List.mem_map.2 ⟨q, List.mem_of_find?_eq_some hf, hkey⟩

/-- C4, the claim refuted: with base name `test`, the flag `--redis.host`
not set, the configuration file giving `redis.host` the value `10.0.0.7` and
the environment giving `TEST_REDIS_HOST=10.0.0.9`, the command runs to its end
and the field holds the value of the environment, not that of the file. -/
theorem file_over_env_counterexample :
    (Execute redisApp (fileAndEnv [hostDefault])
        (NewApp redisApp [("redis.host", "127.0.0.1")])).2 = .ret none
      ∧ (Execute redisApp (fileAndEnv [hostDefault])
        (NewApp redisApp [("redis.host", "127.0.0.1")])).1.options.get "redis.host"
          = some "10.0.0.9"
      ∧ (Execute redisApp (fileAndEnv [hostDefault])
        (NewApp redisApp [("redis.host", "127.0.0.1")])).1.viper.config.get "redis.host"
          = some "10.0.0.7" := by
  decide

/-- C4 as amended: with the config feature on, for a lower-case key that no
flag sets on the command line, that has a value in the configuration file and
a field in the options object, in a store set up by `addConfigFlag` with no
flag bound at a parent path of the key: when the environment variable of the
key has a non-empty value the resolved field holds that value (environment
before file); the field holds the value of the file when the environment
variable is absent or empty and no parent path of the key has an
environment value. -/
theorem env_over_file {ε : Type} (a : App ε) (o : CliOptions ε) (w : World ε) (s : State)
    (k old fv : String) (hnc : a.noConfig = false) (ho : a.options = some o)
    (hdec : resolveErr a w s = none) (hfield : s.options.get k = some old)
    (hk : strings.ToLower k = k) (hprev : s.viper.pflags = [])
    (hnot : ∀ g ∈ w.flags, strings.ToLower g.Name = k → g.Changed = false)
    (hsf : (s.viper.bindAll w.flags).shadowedInFlags k = false)
    (hs : EnvSetUp a.basename s.viper) (hfile : s.viper.config.get k = some fv) :
    (∀ e, w.environ.get (envVar a.basename k) = some e → e ≠ ""
        → (resolvedFields a w s).get k = some e)
      ∧ ((w.environ.get (envVar a.basename k) = none
            ∨ w.environ.get (envVar a.basename k) = some "")
          → s.viper.shadowedInAutoEnv w.environ k = false
          → (resolvedFields a w s).get k = some fv) := by
  obtain ⟨h1, h2⟩ := find_unset_flag s.viper w.flags w.environ a.basename k fv hk hprev hnot
    hsf hs hfile
  have hmem : k ∈ (s.viper.bindAll w.flags).AllKeys :=
    mem_AllKeys_of_config (s.viper.bindAll w.flags) k fv hfile
  have hres := resolved_get a o w s k old hnc ho hdec hfield
  rw [if_pos hmem] at hres
  unfold Viper.Get at hres
  constructor
  · intro e he hne
    rw [hres, h1 e he hne]
    rfl
  · intro he hsae
    rw [hres, h2 he hsae]
    rfl

/-- C4 as amended, at base name `test` and key `redis.host`, the flag not
set: with `TEST_REDIS_HOST=10.0.0.9` the field holds `10.0.0.9` although the
file gives `10.0.0.7`. -/
theorem env_over_file_witness :
    (resolvedFields redisApp (fileAndEnv [hostDefault])
        (onInitialize "test" (fileAndEnv [hostDefault])
          (NewApp redisApp [("redis.host", "127.0.0.1")])).1).get "redis.host"
      = some "10.0.0.9" :=
  (env_over_file redisApp redisOptions (fileAndEnv [hostDefault])
    (onInitialize "test" (fileAndEnv [hostDefault]) (NewApp redisApp [("redis.host", "127.0.0.1")])).1
    "redis.host" "127.0.0.1" "10.0.0.7" rfl rfl (by decide) (by decide) (by decide) (by decide)
    (by decide) (by decide) ⟨by decide, by decide, by decide⟩ (by decide)).1
    "10.0.0.9" (by decide) (by decide)

/-! ## Failure of the configuration file, and the exit status -/

/-- The initializer on a failing read: one line on standard error, then exit
status 1. -/
theorem onInitialize_failure {ε : Type} (b : String) (w : World ε) (s : State) (e : ε)
    (hread : (locateConfig b w.cfgFile s.viper).ReadInConfig w.readFile = .error e) :
    onInitialize b w s
      = (({ s with viper := locateConfig b w.cfgFile s.viper }.emit .ReadInConfig).emit
          (.stderr ("Error: failed to read configuration file(" ++ w.cfgFile ++ "): "
            ++ w.msg e ++ "\n")), .exit 1) := by
  unfold onInitialize
  simp only [hread]

/-- The command on a failing read of the configuration file. -/
theorem Execute_read_failure {ε : Type} (a : App ε) (w : World ε) (s : State) (e : ε)
    (hnc : a.noConfig = false) (hrun : a.runFunc.isSome = true) (hp : w.parseErr = none)
    (hh : w.helpRequested = false)
    (hread : (locateConfig a.basename w.cfgFile s.viper).ReadInConfig w.readFile = .error e) :
    Execute a w s
      = (({ s with viper := locateConfig a.basename w.cfgFile s.viper }.emit .ReadInConfig).emit
          (.stderr ("Error: failed to read configuration file(" ++ w.cfgFile ++ "): "
            ++ w.msg e ++ "\n")), .exit 1) := by
  have hn : a.runFunc.isNone = false := by
    cases h : a.runFunc with
    | none => simp [h] at hrun
    | some r => rfl
  unfold Execute
  simp only [hp, hh, hn, hnc, Bool.or_self, Bool.false_eq_true, if_false, Bool.not_false, if_true,
    onInitialize_failure a.basename w s e hread]

/-- C9: with the config feature on, when the command reaches its
initializers (the arguments parse, no help is asked for, there is a run
callback) and reading the configuration file fails, for an explicit path as
for a discovered one, `Run` ends the process with exit status 1; the events
are the read and one line on standard error only (no flag binding, no
lifecycle hook, no run callback), the options are untouched, and all this is
the same in silent mode and out of it. -/
theorem config_read_failure {ε : Type} (a : App ε) (w : World ε) (s : State) (e : ε)
    (hnc : a.noConfig = false) (hrun : a.runFunc.isSome = true) (hp : w.parseErr = none)
    (hh : w.helpRequested = false)
    (hread : (locateConfig a.basename w.cfgFile s.viper).ReadInConfig w.readFile = .error e) :
    (Run a w s).2 = .exit 1 ∧ exitCode (Run a w s).2 = 1
      ∧ (Run a w s).1.trace = s.trace ++ [Event.ReadInConfig,
          Event.stderr ("Error: failed to read configuration file(" ++ w.cfgFile ++ "): "
            ++ w.msg e ++ "\n")]
      ∧ (Run a w s).1.options = s.options
      ∧ Run { a with silence := true } w s = Run { a with silence := false } w s := by
  have h1 := Execute_read_failure a w s e hnc hrun hp hh hread
  have h2 := Execute_read_failure { a with silence := true } w s e hnc hrun hp hh hread
  have h3 := Execute_read_failure { a with silence := false } w s e hnc hrun hp hh hread
  refine ⟨?_, ?_, ?_, ?_, ?_⟩
  · unfold Run
    rw [h1]
  · unfold Run
    rw [h1]
    rfl
  · unfold Run
    rw [h1]
    simp
  · unfold Run
    rw [h1]
    rfl
  · unfold Run
    rw [h2, h3]

/-- C9 at an app with the config feature on and no configuration file to
read. -/
theorem config_read_failure_witness :
    (Run failingRun plainWorld (NewApp failingRun [])).2 = .exit 1
      ∧ (Run failingRun plainWorld (NewApp failingRun [])).1.trace
        = [Event.ReadInConfig,
            Event.stderr "Error: failed to read configuration file(): Not Found\n"] :=
  ⟨(config_read_failure failingRun plainWorld (NewApp failingRun []) "Not Found" rfl rfl rfl rfl
      rfl).1,
    (config_read_failure failingRun plainWorld (NewApp failingRun []) "Not Found" rfl rfl rfl rfl
      rfl).2.2.1⟩

/-- Past the version display `runCommand` returns: it never ends the
process. -/
theorem runCommand_returns {ε : Type} (a : App ε) (w : World ε) (s : State)
    (hv : a.noVersion = true ∨ w.versionRequest = none) :
    ∃ r, (runCommand a w s).2 = .ret r := by
  unfold runCommand
  rw [version_passes a w s hv]
  simp only
  split
  · exact ⟨_, rfl⟩
  · split
    · exact ⟨_, rfl⟩
    · split <;> exact ⟨_, rfl⟩

/-- The only exit inside `runCommand` is the version display, with status 0. -/
theorem runCommand_exit {ε : Type} (a : App ε) (w : World ε) (s : State) (code : Nat)
    (h : (runCommand a w s).2 = .exit code) : code = 0 := by
  by_cases hv : a.noVersion = true ∨ w.versionRequest = none
  · obtain ⟨r, hr⟩ := runCommand_returns a w s hv
    rw [hr] at h
    cases h
  · have h1 : a.noVersion = false := by
      cases hn : a.noVersion with
      | true => exact absurd (Or.inl hn) hv
      | false => rfl
    cases hreq : w.versionRequest with
    | none => exact absurd (Or.inr hreq) hv
    | some text =>
      unfold runCommand at h
      simp only [h1, Bool.not_false, if_true, PrintAndExitIfRequested, hreq] at h
      cases h
      rfl

/-- The exits inside the command: status 0 (the version display), or
status 1 when reading the configuration file fails in the initializer. -/
theorem Execute_exit {ε : Type} (a : App ε) (w : World ε) (s : State) (code : Nat)
    (h : (Execute a w s).2 = .exit code) :
    code = 0 ∨ (code = 1 ∧ a.noConfig = false
      ∧ ∃ e, (locateConfig a.basename w.cfgFile s.viper).ReadInConfig w.readFile = .error e) := by
  unfold Execute at h
  cases hp : w.parseErr with
  | some e => simp [hp] at h
  | none =>
    simp only [hp] at h
    by_cases hh : (w.helpRequested || a.runFunc.isNone) = true
    · simp [hh] at h
    · simp only [hh, Bool.false_eq_true, if_false] at h
      cases hnc : a.noConfig with
      | true =>
        simp only [hnc, Bool.not_true, Bool.false_eq_true, if_false] at h
        cases hargs : a.args.bind (fun check => check w.positional) with
        | some e => simp [hargs] at h
        | none =>
          simp only [hargs] at h
          exact Or.inl (runCommand_exit a w s code h)
      | false =>
        simp only [hnc, Bool.not_false, if_true] at h
        cases hr : (locateConfig a.basename w.cfgFile s.viper).ReadInConfig w.readFile with
        | error e =>
          rw [onInitialize_failure a.basename w s e hr] at h
          simp only at h
          cases h
          exact Or.inr ⟨rfl, rfl, e, rfl⟩
        | ok v =>
          unfold onInitialize at h
          simp only [hr] at h
          cases hargs : a.args.bind (fun check => check w.positional) with
          | some e => simp [hargs] at h
          | none =>
            simp only [hargs] at h
            exact Or.inl (runCommand_exit a w _ code h)

/-- C10, the claim refuted: when the command returns an error (the spy app,
whose `Complete` fails), `Run` prints the message on standard output and
nothing on standard error; and when reading the configuration file fails
the exit status is 1 although the command returns no error, the process
ending inside it. -/
theorem Run_counterexample :
    (Execute spyApp plainWorld {}).2 = .ret (some (.err "boom"))
      ∧ (Run spyApp plainWorld {}).1.trace.getLast? = some (Event.stdout "Error: boom\n")
      ∧ (∀ m, Event.stderr m ∉ (Run spyApp plainWorld {}).1.trace)
      ∧ exitCode (Run failingRun plainWorld (NewApp failingRun [])).2 = 1
      ∧ (Execute failingRun plainWorld (NewApp failingRun [])).2 = .exit 1 := by
  refine ⟨by decide, by decide, ?_, by decide, by decide⟩
  intro m hm
  have ht : ((Run spyApp plainWorld {}).1.trace.all
      (fun e => match e with | .stderr _ => false | _ => true)) = true := by decide
  have := List.all_eq_true.1 ht _ hm
  simp at this

/-! ## Normalisation of flag names -/

/-- A string that holds a rune contains it. -/
theorem Contains_iff (s : String) (c : Char) : strings.Contains s c = true ↔ c ∈ s.data := by
  unfold strings.Contains
  simp

/-- The name `WordSepNormalizeFunc` returns, rune by rune. -/
theorem WordSepNormalizeFunc_data (name : String) :
    (fname.WordSepNormalizeFunc name).data
      = name.data.map (fun c => if c = '_' then '-' else c) := by
  unfold fname.WordSepNormalizeFunc
  by_cases h : strings.Contains name '_' = true
  · rw [if_pos h]
    rfl
  · rw [if_neg h]
    have hn : '_' ∉ name.data := fun hm => h ((Contains_iff name '_').2 hm)
    symm
    calc name.data.map (fun c => if c = '_' then '-' else c)
        = name.data.map id := by
          apply List.map_congr_left
          intro c hc
          have : c ≠ '_' := fun e => hn (e ▸ hc)
          simp [this]
      _ = name.data := List.map_id _

/-- The name `WordSepNormalizeFunc` returns has no underscore. -/
theorem WordSepNormalizeFunc_no_underscore (name : String) :
    '_' ∉ (fname.WordSepNormalizeFunc name).data := by
  rw [WordSepNormalizeFunc_data]
  intro h
  rcases List.mem_map.1 h with ⟨c, _, hc⟩
  by_cases hu : c = '_'
  · rw [if_pos hu] at hc
    exact absurd hc (by decide)
  · rw [if_neg hu] at hc
    exact hu hc

/-- A name without underscore is what `WordSepNormalizeFunc` returns for it. -/
theorem WordSepNormalizeFunc_fixed (name : String) (h : '_' ∉ name.data) :
    fname.WordSepNormalizeFunc name = name := by
  unfold fname.WordSepNormalizeFunc
  have hc : ¬ strings.Contains name '_' = true := fun hm => h ((Contains_iff name '_').1 hm)
  rw [if_neg hc]

/-- C13: for every flag name, `WordSepNormalizeFunc` returns the name with
every `_` replaced by `-`: the result has no `_`, a name without `_` comes
back unchanged, applying the function twice gives what applying it once
gives, and `WarnWordSepNormalizeFunc` returns the same name. -/
theorem WordSepNormalizeFunc_normalizes (name : String) :
    (fname.WordSepNormalizeFunc name).data
        = name.data.map (fun c => if c = '_' then '-' else c)
      ∧ '_' ∉ (fname.WordSepNormalizeFunc name).data
      ∧ ('_' ∉ name.data → fname.WordSepNormalizeFunc name = name)
      ∧ fname.WordSepNormalizeFunc (fname.WordSepNormalizeFunc name)
          = fname.WordSepNormalizeFunc name
      ∧ (fname.WarnWordSepNormalizeFunc name).2 = fname.WordSepNormalizeFunc name := by
  refine ⟨WordSepNormalizeFunc_data name, WordSepNormalizeFunc_no_underscore name,
    WordSepNormalizeFunc_fixed name,
    WordSepNormalizeFunc_fixed _ (WordSepNormalizeFunc_no_underscore name), ?_⟩
  unfold fname.WarnWordSepNormalizeFunc fname.WordSepNormalizeFunc
  split <;> rfl

/-- C13 at the names `redis_host_name` and `redis.host`. -/
theorem WordSepNormalizeFunc_normalizes_witness :
    fname.WordSepNormalizeFunc "redis_host_name" = "redis-host-name"
      ∧ fname.WordSepNormalizeFunc "redis.host" = "redis.host"
      ∧ (fname.WarnWordSepNormalizeFunc "redis_host_name").2
          = fname.WordSepNormalizeFunc "redis_host_name" :=
  ⟨by decide,
    (WordSepNormalizeFunc_normalizes "redis.host").2.2.1 (by decide),
    (WordSepNormalizeFunc_normalizes "redis_host_name").2.2.2.2⟩

/-! ## The flags recorded for diagnostics -/

/-- What `pbF` writes for a flag: its line when the flag counts as
supplied, nothing otherwise. -/
theorem pbF_eq (quote : String → String) (flag : Flag) :
    pbF quote flag = if supplied flag then flagLine quote flag else "" := rfl

/-- Appending what `pbF` writes for every flag is appending the lines of the
supplied flags. -/
theorem foldl_pbF (quote : String → String) (flags : List Flag) (acc : String) :
    (flags.map (pbF quote)).foldl (fun r x => r ++ x) acc
      = ((flags.filter supplied).map (flagLine quote)).foldl (fun r x => r ++ x) acc := by
  induction flags generalizing acc with
  | nil => rfl
  | cons f rest ih =>
    rw [List.map_cons, List.foldl_cons, pbF_eq]
    by_cases h : supplied f = true
    · rw [List.filter_cons_of_pos h, List.map_cons, List.foldl_cons, if_pos h]
      exact ih _
    · rw [List.filter_cons_of_neg h, if_neg h, String.append_empty]
      exact ih _

/-- The builder `pb` holds the lines of the supplied flags, in the order of
the flag set. -/
theorem pb_lines (quote : String → String) (flags : List Flag) :
    String.join (flags.map (pbF quote))
      = String.join ((flags.filter supplied).map (flagLine quote)) := by
  unfold String.join
  exact foldl_pbF quote flags ""

/-- The hooks of `applyOptionRules` only add events. -/
theorem applyOptionRules_prefix {ε : Type} (a : App ε) (o : CliOptions ε) (w : World ε)
    (s : State) : s.trace <+: (applyOptionRules a o w s).1.trace := by
  unfold applyOptionRules
  cases hC : o.Complete with
  | none =>
    simp only
    split
    · simp
    · split
      · split <;> simp [List.append_assoc]
      · simp
  | some complete =>
    simp only
    cases hE : (complete s.options).2 with
    | some e => simp
    | none =>
      simp only
      split
      · simp [List.append_assoc]
      · split
        · split <;> simp [List.append_assoc]
        · simp [List.append_assoc]

/-- Added events only, read off a result of `applyOptionRules`. -/
theorem prefix_result {ε : Type} (a : App ε) (o : CliOptions ε) (w : World ε)
    (s s1 : State) (r : Option (GoError ε)) (h : applyOptionRules a o w s = (s1, r)) :
    s.trace <+: s1.trace := by
  have := applyOptionRules_prefix a o w s
  rw [h] at this
  exact this

/-- Two neighbouring events of a trace are an infix of it. -/
theorem infix_mid (T : List Event) (x h l : Event) (post : List Event) :
    [h, l] <:+: T ++ x :: h :: l :: post :=
  ⟨T ++ [x], post, by simp⟩

/-- The banner of `runCommand` holds the header of the flag items followed
by the text recorded. -/
theorem banner_flag_items {ε : Type} (a : App ε) (w : World ε) (s : State) (pb : String) :
    [Event.stdout (w.progressMessage ++ " Flags items:\n"), Event.stdout (w.sprintf0 pb)]
      <:+: (if (!a.noVersion) = true then
          ((((printWorkingDir w s).emit
            (Event.stdout (w.progressMessage ++ " Flags items:\n"))).emit
            (Event.stdout (w.sprintf0 pb))).emit
            (Event.stdout (w.progressMessage ++ " Starting " ++ a.name ++ " ...\n"))).emit
            (Event.stdout (w.progressMessage ++ " Version: `" ++ w.versionJSON ++ "`\n"))
        else
          (((printWorkingDir w s).emit
            (Event.stdout (w.progressMessage ++ " Flags items:\n"))).emit
            (Event.stdout (w.sprintf0 pb))).emit
            (Event.stdout (w.progressMessage ++ " Starting " ++ a.name ++ " ...\n"))).trace := by
  cases a.noVersion
  · simp only [Bool.not_false, if_true, State.emit_trace, printWorkingDir, List.append_assoc,
      List.singleton_append]
    exact infix_mid _ _ _ _ _
  · simp only [Bool.not_true, Bool.false_eq_true, if_false, State.emit_trace, printWorkingDir,
      List.append_assoc, List.singleton_append]
    exact infix_mid _ _ _ _ _

/-- Out of silent mode, with no version display pending and a resolution
step without error, the trace of `runCommand` holds the header of the flag
items followed by the text recorded: nothing with the config flag disabled,
the lines of the supplied flags otherwise. -/
theorem runCommand_records {ε : Type} (a : App ε) (w : World ε) (s : State)
    (hsil : a.silence = false) (hv : a.noVersion = true ∨ w.versionRequest = none)
    (hr : resolveErr a w s = none) :
    [Event.stdout (w.progressMessage ++ " Flags items:\n"),
      Event.stdout (w.sprintf0 (if a.noConfig then ""
        else String.join ((w.flags.filter supplied).map (flagLine w.quote))))]
      <:+: (runCommand a w s).1.trace := by
  unfold runCommand
  rw [version_passes a w s hv]
  unfold resolveErr at hr
  simp only [hsil, Bool.not_false, if_true]
  cases hnc : a.noConfig
  · simp only [hnc, Bool.not_false, if_true, Viper.BindPFlags, State.emit_viper,
      State.emit_options, printConfig_options, printConfig_viper, pb_lines,
      Bool.false_eq_true, if_false] at hr ⊢
    cases hU : Unmarshal (s.viper.bindAll w.flags) w.environ a.options s.options with
    | error err => simp [hU] at hr
    | ok fields =>
      simp only
      cases hO : a.options with
      | none =>
        simp only
        cases hR : a.runFunc with
        | none => exact banner_flag_items a w _ _
        | some run =>
          simp only [State.emit_trace]
          exact List.IsInfix.trans (banner_flag_items a w _ _)
            (List.IsPrefix.isInfix (List.prefix_append _ _))
      | some o =>
        simp only
        split
        · rename_i heq
          exact List.IsInfix.trans (banner_flag_items a w _ _)
            (List.IsPrefix.isInfix (prefix_result a o w _ _ _ heq))
        · rename_i heq
          have hp := List.IsInfix.trans (banner_flag_items a w _ _)
            (List.IsPrefix.isInfix (prefix_result a o w _ _ _ heq))
          cases hR : a.runFunc with
          | none => exact hp
          | some run =>
            simp only [State.emit_trace]
            exact List.IsInfix.trans hp (List.IsPrefix.isInfix (List.prefix_append _ _))
  · simp only [Bool.not_true, Bool.false_eq_true, if_false, if_true]
    cases hO : a.options with
    | none =>
      simp only
      cases hR : a.runFunc with
      | none => exact banner_flag_items a w s ""
      | some run =>
        simp only [State.emit_trace]
        exact List.IsInfix.trans (banner_flag_items a w s "")
          (List.IsPrefix.isInfix (List.prefix_append _ _))
    | some o =>
      simp only
      split
      · rename_i heq
        exact List.IsInfix.trans (banner_flag_items a w s "")
          (List.IsPrefix.isInfix (prefix_result a o w _ _ _ heq))
      · rename_i heq
        have hp := List.IsInfix.trans (banner_flag_items a w s "")
          (List.IsPrefix.isInfix (prefix_result a o w _ _ _ heq))
        cases hR : a.runFunc with
        | none => exact hp
        | some run =>
          simp only [State.emit_trace]
          exact List.IsInfix.trans hp (List.IsPrefix.isInfix (List.prefix_append _ _))

/-- C12, the claim refuted: with the config flag disabled (`WithNoConfig`)
and the flag `--redis.host` set on the command line, `runCommand` records no
flag: after the header of the flag items comes the empty text. -/
theorem flags_recorded_counterexample :
    supplied hostFlag = true ∧ hostFlag ∈ hostWorld.flags
      ∧ (runCommand noConfigApp hostWorld {}).1.trace
        = [Event.stdout "==> WorkingDir: \n", Event.stdout "==> Flags items:\n",
            Event.stdout "", Event.stdout "==> Starting test ...\n", Event.runFunc "test"] := by
  decide

/-- C12 as amended: out of silent mode, with no version display pending and
a resolution step without error, `runCommand` prints after the header of
the flag items the text it recorded: with the config flag enabled, the
lines `FLAG: --name="value"` of exactly the flags whose changed bit is set or
whose value string differs from the default value string, one line for each
such flag in the order of the flag set and no line for any other flag; with
the config flag disabled, nothing. -/
theorem flags_recorded {ε : Type} (a : App ε) (w : World ε) (s : State)
    (hsil : a.silence = false) (hv : a.noVersion = true ∨ w.versionRequest = none)
    (hr : resolveErr a w s = none) :
    [Event.stdout (w.progressMessage ++ " Flags items:\n"),
      Event.stdout (w.sprintf0 (if a.noConfig then ""
        else String.join ((w.flags.filter supplied).map (flagLine w.quote))))]
      <:+: (runCommand a w s).1.trace :=
  runCommand_records a w s hsil hv hr

/-- C12 as amended, at a flag set with `--redis.host` set and a second flag
left at its default: one line, that of the flag set. -/
theorem flags_recorded_witness :
    [Event.stdout "==> Flags items:\n", Event.stdout "FLAG: --redis.host=\"10.0.0.5\"\n"]
      <:+: (runCommand verboseApp hostWorld {}).1.trace :=
  flags_recorded verboseApp hostWorld {} rfl (Or.inl rfl) (by decide)

/-! ## Silent mode and the summary -/

/-- In silent mode the hooks of `applyOptionRules` print nothing. -/
theorem applyOptionRules_silent {ε : Type} (a : App ε) (o : CliOptions ε) (w : World ε)
    (s : State) (hs : a.silence = true) :
    (applyOptionRules a o w s).1.trace.filter Event.isOutput
      = s.trace.filter Event.isOutput := by
  unfold applyOptionRules
  cases hC : o.Complete with
  | none =>
    simp only [hs]
    split
    · simp [List.filter_append, Event.isOutput]
    · split <;> simp [List.filter_append, Event.isOutput]
  | some complete =>
    simp only [hs]
    cases hE : (complete s.options).2 with
    | some e => simp [List.filter_append, Event.isOutput]
    | none =>
      simp only
      split
      · simp [List.filter_append, Event.isOutput]
      · split <;> simp [List.filter_append, Event.isOutput]

/-- Nothing printed in silent mode, read off a result of
`applyOptionRules`. -/
theorem silent_result {ε : Type} (a : App ε) (o : CliOptions ε) (w : World ε)
    (s s1 : State) (r : Option (GoError ε)) (h : applyOptionRules a o w s = (s1, r))
    (hs : a.silence = true) :
    s1.trace.filter Event.isOutput = s.trace.filter Event.isOutput := by
  have := applyOptionRules_silent a o w s hs
  rw [h] at this
  exact this

/-- In silent mode, past the version display, `runCommand` prints nothing. -/
theorem runCommand_silent_passed {ε : Type} (a : App ε) (w : World ε) (s : State)
    (hs : a.silence = true) (hv : a.noVersion = true ∨ w.versionRequest = none) :
    (runCommand a w s).1.trace.filter Event.isOutput = s.trace.filter Event.isOutput := by
  unfold runCommand
  rw [version_passes a w s hv]
  simp only [hs, Bool.not_true, Bool.false_eq_true, if_false]
  cases hnc : a.noConfig
  · simp only [Bool.not_false, if_true, Viper.BindPFlags, State.emit_viper, State.emit_options]
    cases hU : Unmarshal (s.viper.bindAll w.flags) w.environ a.options s.options with
    | error err => simp [List.filter_append, Event.isOutput]
    | ok fields =>
      simp only
      cases hO : a.options with
      | none =>
        cases hR : a.runFunc <;> simp [List.filter_append, Event.isOutput]
      | some o =>
        simp only
        split
        · rename_i heq
          rw [silent_result a o w _ _ _ heq hs]
          simp [List.filter_append, Event.isOutput]
        · rename_i heq
          have ht := silent_result a o w _ _ _ heq hs
          cases hR : a.runFunc <;>
            simp only [State.emit_trace, List.filter_append, ht] <;>
            simp [List.filter_append, Event.isOutput]
  · simp only [Bool.not_true, Bool.false_eq_true, if_false]
    cases hO : a.options with
    | none =>
      cases hR : a.runFunc
      · simp [List.filter_append, Event.isOutput]
      · simp [List.filter_append, Event.isOutput]
    | some o =>
      simp only
      split
      · rename_i heq
        rw [silent_result a o w _ _ _ heq hs]
      · rename_i heq
        have ht := silent_result a o w _ _ _ heq hs
        cases hR : a.runFunc with
        | none => exact ht
        | some run => simp [List.filter_append, Event.isOutput, ht]

/-- In silent mode the only line `runCommand` prints is the version text,
when the version flag asks for it. -/
theorem runCommand_silent {ε : Type} (a : App ε) (w : World ε) (s : State)
    (hs : a.silence = true) :
    (runCommand a w s).1.trace.filter Event.isOutput
      = s.trace.filter Event.isOutput
        ++ (if a.noVersion then []
            else match w.versionRequest with
              | some text => [Event.stdout (text ++ "\n")]
              | none => []) := by
  by_cases hv : a.noVersion = true ∨ w.versionRequest = none
  · rw [runCommand_silent_passed a w s hs hv]
    rcases hv with h | h
    · simp [h]
    · simp [h]
  · have h1 : a.noVersion = false := by
      cases hn : a.noVersion with
      | true => exact absurd (Or.inl hn) hv
      | false => rfl
    cases hreq : w.versionRequest with
    | none => exact absurd (Or.inr hreq) hv
    | some text =>
      unfold runCommand
      simp [h1, PrintAndExitIfRequested, hreq, List.filter_append, Event.isOutput]

/-- The events `applyOptionRules` adds; when the call of `String` is among
them, the app is not silent, `Complete` gave nil, `Validate` gave the empty
slice, the result is nil, and the events end with the call of `Validate`,
the call of `String` and the line of the summary. -/
theorem summary_events {ε : Type} (a : App ε) (o : CliOptions ε) (w : World ε) (s : State) :
    ∃ t, (applyOptionRules a o w s).1.trace = s.trace ++ t ∧
      (Event.String ∈ t →
        a.silence = false ∧ completeErr o s.options = none ∧ validateErrs o s.options = []
          ∧ (applyOptionRules a o w s).2 = none
          ∧ ∃ pre string, o.String = some string ∧ Event.String ∉ pre ∧ Event.Validate ∉ pre
              ∧ t = pre ++ [Event.Validate, Event.String,
                  Event.stdout (w.progressMessage ++ " Config: `"
                    ++ string (o.Validate (afterComplete o s.options)).1 ++ "`\n")]) := by
  unfold applyOptionRules completeErr validateErrs afterComplete
  cases hC : o.Complete with
  | none =>
    simp only
    by_cases hlen : (o.Validate s.options).2.length ≠ 0
    · refine ⟨[Event.Validate], ?_, fun h => ?_⟩
      · simp [hlen]
      · simp at h
    · have h0 : (o.Validate s.options).2 = [] := by
        simpa using hlen
      cases hS : o.String with
      | none =>
        refine ⟨[Event.Validate], ?_, fun h => ?_⟩
        · simp [hlen]
        · simp at h
      | some string =>
        cases hsil : a.silence with
        | true =>
          refine ⟨[Event.Validate], ?_, fun h => ?_⟩
          · simp [hlen]
          · simp at h
        | false =>
          refine ⟨[Event.Validate, Event.String, Event.stdout (w.progressMessage ++ " Config: `"
            ++ string (o.Validate s.options).1 ++ "`\n")], ?_, fun _ => ?_⟩
          · simp [hlen]
          · refine ⟨rfl, by first | rfl | trivial, h0, ?_, [], string, rfl, by simp, by simp, rfl⟩
            simp [hlen]
  | some complete =>
    simp only
    cases hE : (complete s.options).2 with
    | some e =>
      refine ⟨[Event.Complete], ?_, fun h => ?_⟩
      · simp
      · simp at h
    | none =>
      simp only
      by_cases hlen : (o.Validate (complete s.options).1).2.length ≠ 0
      · refine ⟨[Event.Complete, Event.Validate], ?_, fun h => ?_⟩
        · simp [hlen]
        · simp at h
      · have h0 : (o.Validate (complete s.options).1).2 = [] := by
          simpa using hlen
        cases hS : o.String with
        | none =>
          refine ⟨[Event.Complete, Event.Validate], ?_, fun h => ?_⟩
          · simp [hlen]
          · simp at h
        | some string =>
          cases hsil : a.silence with
          | true =>
            refine ⟨[Event.Complete, Event.Validate], ?_, fun h => ?_⟩
            · simp [hlen]
            · simp at h
          | false =>
            refine ⟨[Event.Complete, Event.Validate, Event.String,
              Event.stdout (w.progressMessage ++ " Config: `"
                ++ string (o.Validate (complete s.options).1).1 ++ "`\n")], ?_, fun _ => ?_⟩
            · simp [hlen]
            · refine ⟨rfl, by first | rfl | trivial, h0, ?_, [Event.Complete], string, rfl, by simp, by simp, rfl⟩
              simp [hlen]

/-- A new call of `String`, read off a result of `applyOptionRules`: either
the trace holds as many calls of `String` as before, or the app is not
silent, `Complete` gave nil and `Validate` gave the empty slice. -/
theorem summary_result {ε : Type} (a : App ε) (o : CliOptions ε) (w : World ε)
    (s s1 : State) (r : Option (GoError ε)) (h : applyOptionRules a o w s = (s1, r))
    (f : Fields) (hf : s.options = f) (n : Nat) (hn : s.trace.count Event.String = n) :
    s1.trace.count Event.String = n
      ∨ (a.silence = false ∧ completeErr o f = none ∧ validateErrs o f = []) := by
  obtain ⟨t, ht, himp⟩ := summary_events a o w s
  rw [h] at ht
  simp only at ht
  by_cases hmem : Event.String ∈ t
  · right
    obtain ⟨h1, h2, h3, _⟩ := himp hmem
    rw [← hf]
    exact ⟨h1, h2, h3⟩
  · left
    rw [ht, List.count_append, hn, List.count_eq_zero_of_not_mem hmem]
    rfl

/-- The diagnostics of `printConfig` call no `String`. -/
@[simp] theorem printConfig_count_String {ε : Type} (w : World ε) (ks : List String)
    (s : State) :
    (printConfig w ks s).trace.count Event.String = s.trace.count Event.String := by
  unfold printConfig
  split <;> simp [List.count_append]

/-- A new call of `String` in `runCommand`: either the trace holds as many
calls of `String` as at entry, or there is an options object, the app is not
silent, and on the resolved fields `Complete` gave nil and `Validate` gave the
empty slice. -/
theorem runCommand_summary {ε : Type} (a : App ε) (w : World ε) (s : State) :
    (runCommand a w s).1.trace.count Event.String = s.trace.count Event.String
      ∨ ∃ o, a.options = some o ∧ a.silence = false
          ∧ completeErr o (resolvedFields a w s) = none
          ∧ validateErrs o (resolvedFields a w s) = [] := by
  by_cases hv : a.noVersion = true ∨ w.versionRequest = none
  · unfold runCommand resolvedFields
    rw [version_passes a w s hv]
    simp only
    cases hnc : a.noConfig
    · simp only [Bool.not_false, if_true, Viper.BindPFlags, State.emit_viper,
        State.emit_options]
      have hopt : (if (!a.silence) = true then
          printConfig w s.viper.AllKeys (s.emit (Event.stdout (w.progressMessage
            ++ " Config file used: `" ++ s.viper.ConfigFileUsed ++ "`\n"))) else s).options
          = s.options := by
        cases a.silence <;> simp
      have hvip : (if (!a.silence) = true then
          printConfig w s.viper.AllKeys (s.emit (Event.stdout (w.progressMessage
            ++ " Config file used: `" ++ s.viper.ConfigFileUsed ++ "`\n"))) else s).viper
          = s.viper := by
        cases a.silence <;> simp
      simp only [hopt, hvip]
      cases hO : a.options with
      | none =>
        left
        cases hU : Unmarshal (s.viper.bindAll w.flags) w.environ (none : Option (CliOptions ε))
            s.options with
        | error err =>
          cases a.silence <;> simp [List.count_append]
        | ok fields =>
          cases hR : a.runFunc <;> cases a.silence <;> cases a.noVersion <;>
            simp [printWorkingDir, List.count_append]
      | some o =>
        cases hU : Unmarshal (s.viper.bindAll w.flags) w.environ (some o) s.options with
        | error err =>
          left
          cases a.silence <;> simp [List.count_append]
        | ok fields =>
          simp only
          split
          · rename_i heq
            exact (summary_result a o w _ _ _ heq fields
              (by cases a.silence <;> cases a.noVersion <;> simp [printWorkingDir])
              (s.trace.count Event.String)
              (by cases a.silence <;> cases a.noVersion <;>
                simp [printWorkingDir, List.count_append])).imp id (fun h => ⟨o, rfl, h⟩)
          · rename_i heq
            have key := summary_result a o w _ _ _ heq fields
              (by cases a.silence <;> cases a.noVersion <;> simp [printWorkingDir])
              (s.trace.count Event.String)
              (by cases a.silence <;> cases a.noVersion <;>
                simp [printWorkingDir, List.count_append])
            rcases key with h | h
            · left
              cases hR : a.runFunc with
              | none => exact h
              | some run => simp [List.count_append, h]
            · exact Or.inr ⟨o, rfl, h⟩
    · simp only [Bool.not_true, Bool.false_eq_true, if_false]
      cases hO : a.options with
      | none =>
        left
        cases hR : a.runFunc <;> cases a.silence <;> cases a.noVersion <;>
          simp [printWorkingDir, List.count_append]
      | some o =>
        simp only
        split
        · rename_i heq
          exact (summary_result a o w _ _ _ heq s.options
            (by cases a.silence <;> cases a.noVersion <;> simp [printWorkingDir])
            (s.trace.count Event.String)
            (by cases a.silence <;> cases a.noVersion <;>
              simp [printWorkingDir, List.count_append])).imp id (fun h => ⟨o, rfl, h⟩)
        · rename_i heq
          have key := summary_result a o w _ _ _ heq s.options
            (by cases a.silence <;> cases a.noVersion <;> simp [printWorkingDir])
            (s.trace.count Event.String)
            (by cases a.silence <;> cases a.noVersion <;>
              simp [printWorkingDir, List.count_append])
          rcases key with h | h
          · left
            cases hR : a.runFunc with
            | none => exact h
            | some run => simp [List.count_append, h]
          · exact Or.inr ⟨o, rfl, h⟩
  · left
    have h1 : a.noVersion = false := by
      cases hn : a.noVersion with
      | true => exact absurd (Or.inl hn) hv
      | false => rfl
    cases hreq : w.versionRequest with
    | none => exact absurd (Or.inr hreq) hv
    | some text =>
      unfold runCommand
      simp [h1, PrintAndExitIfRequested, hreq, List.count_append]

/-- C11: in silent mode `applyOptionRules` adds no line of output, and
`runCommand` adds none either (no working directory, no configuration file
path or table, no flag items, no name or version line, no summary) apart from
the version text the version display prints when the version flag asks for
it. In any mode, when `applyOptionRules` calls `String` the app is not
silent, `Complete` gave nil, `Validate` gave the empty slice, and the call of
`String` and the line of the summary come right after the call of
`Validate`; and `runCommand` gains a call of `String` only then, on the
resolved fields. -/
theorem silent_mode {ε : Type} (a : App ε) (o : CliOptions ε) (w : World ε) (s : State) :
    (a.silence = true →
        (applyOptionRules a o w s).1.trace.filter Event.isOutput
            = s.trace.filter Event.isOutput
          ∧ (runCommand a w s).1.trace.filter Event.isOutput
            = s.trace.filter Event.isOutput
              ++ (if a.noVersion then []
                  else match w.versionRequest with
                    | some text => [Event.stdout (text ++ "\n")]
                    | none => []))
      ∧ (∃ t, (applyOptionRules a o w s).1.trace = s.trace ++ t ∧
          (Event.String ∈ t →
            a.silence = false ∧ completeErr o s.options = none ∧ validateErrs o s.options = []
              ∧ (applyOptionRules a o w s).2 = none
              ∧ ∃ pre string, o.String = some string ∧ Event.String ∉ pre
                  ∧ Event.Validate ∉ pre
                  ∧ t = pre ++ [Event.Validate, Event.String,
                      Event.stdout (w.progressMessage ++ " Config: `"
                        ++ string (o.Validate (afterComplete o s.options)).1 ++ "`\n")]))
      ∧ ((runCommand a w s).1.trace.count Event.String ≠ s.trace.count Event.String →
          ∃ o2, a.options = some o2 ∧ a.silence = false
            ∧ completeErr o2 (resolvedFields a w s) = none
            ∧ validateErrs o2 (resolvedFields a w s) = []) := by
  refine ⟨fun hs => ⟨applyOptionRules_silent a o w s hs, runCommand_silent a w s hs⟩,
    summary_events a o w s, fun hne => ?_⟩
  rcases runCommand_summary a w s with h | h
  · exact absurd h hne
  · exact h

/-- C11 at a silent app reading a configuration file, and at an app out of
silent mode whose options object implements `String`. -/
theorem silent_mode_witness :
    (runCommand redisApp (fileAndEnv [hostFlag]) {}).1.trace.filter Event.isOutput = []
      ∧ (runCommand printableApp plainWorld {}).1.trace.count Event.String = 1
      ∧ ∃ o2, printableApp.options = some o2 ∧ printableApp.silence = false
          ∧ completeErr o2 (resolvedFields printableApp plainWorld {}) = none
          ∧ validateErrs o2 (resolvedFields printableApp plainWorld {}) = [] :=
  ⟨((silent_mode redisApp redisOptions (fileAndEnv [hostFlag]) {}).1 rfl).2.trans (by decide),
    by decide,
    (silent_mode printableApp printable plainWorld {}).2.2 (by decide)⟩

/-! ## The one print of the error -/

/-- The hooks of `applyOptionRules` write nothing on standard error. -/
theorem applyOptionRules_stderr {ε : Type} (a : App ε) (o : CliOptions ε) (w : World ε)
    (s : State) :
    (applyOptionRules a o w s).1.trace.filter Event.isStderr
      = s.trace.filter Event.isStderr := by
  unfold applyOptionRules
  cases hC : o.Complete with
  | none =>
    simp only
    split
    · simp [List.filter_append, Event.isStderr]
    · split
      · split <;> simp [List.filter_append, Event.isStderr]
      · simp [List.filter_append, Event.isStderr]
  | some complete =>
    simp only
    cases hE : (complete s.options).2 with
    | some e => simp [List.filter_append, Event.isStderr]
    | none =>
      simp only
      split
      · simp [List.filter_append, Event.isStderr]
      · split
        · split <;> simp [List.filter_append, Event.isStderr]
        · simp [List.filter_append, Event.isStderr]

/-- Nothing on standard error, read off a result of `applyOptionRules`. -/
theorem stderr_result {ε : Type} (a : App ε) (o : CliOptions ε) (w : World ε)
    (s s1 : State) (r : Option (GoError ε)) (h : applyOptionRules a o w s = (s1, r)) :
    s1.trace.filter Event.isStderr = s.trace.filter Event.isStderr := by
  have := applyOptionRules_stderr a o w s
  rw [h] at this
  exact this

/-- The diagnostics of `printConfig` write nothing on standard error. -/
@[simp] theorem printConfig_stderr {ε : Type} (w : World ε) (ks : List String) (s : State) :
    (printConfig w ks s).trace.filter Event.isStderr = s.trace.filter Event.isStderr := by
  unfold printConfig
  split <;> simp [List.filter_append, Event.isStderr]

/-- The method `runCommand` writes nothing on standard error. -/
theorem runCommand_stderr {ε : Type} (a : App ε) (w : World ε) (s : State) :
    (runCommand a w s).1.trace.filter Event.isStderr = s.trace.filter Event.isStderr := by
  by_cases hv : a.noVersion = true ∨ w.versionRequest = none
  · unfold runCommand
    rw [version_passes a w s hv]
    simp only
    cases hnc : a.noConfig
    · simp only [Bool.not_false, if_true, Viper.BindPFlags, State.emit_viper,
        State.emit_options]
      have hopt : (if (!a.silence) = true then
          printConfig w s.viper.AllKeys (s.emit (Event.stdout (w.progressMessage
            ++ " Config file used: `" ++ s.viper.ConfigFileUsed ++ "`\n"))) else s).options
          = s.options := by
        cases a.silence <;> simp
      have hvip : (if (!a.silence) = true then
          printConfig w s.viper.AllKeys (s.emit (Event.stdout (w.progressMessage
            ++ " Config file used: `" ++ s.viper.ConfigFileUsed ++ "`\n"))) else s).viper
          = s.viper := by
        cases a.silence <;> simp
      simp only [hopt, hvip]
      cases hO : a.options with
      | none =>
        cases hU : Unmarshal (s.viper.bindAll w.flags) w.environ (none : Option (CliOptions ε))
            s.options with
        | error err =>
          cases a.silence <;> simp [List.filter_append, Event.isStderr]
        | ok fields =>
          cases hR : a.runFunc <;> cases a.silence <;> cases a.noVersion <;>
            simp [printWorkingDir, List.filter_append, Event.isStderr]
      | some o =>
        cases hU : Unmarshal (s.viper.bindAll w.flags) w.environ (some o) s.options with
        | error err =>
          cases a.silence <;> simp [List.filter_append, Event.isStderr]
        | ok fields =>
          simp only
          split
          · rename_i heq
            rw [stderr_result a o w _ _ _ heq]
            cases a.silence <;> cases a.noVersion <;>
              simp [printWorkingDir, List.filter_append, Event.isStderr]
          · rename_i heq
            have ht := stderr_result a o w _ _ _ heq
            cases hR : a.runFunc <;> simp only [State.emit_trace, List.filter_append, ht] <;>
              cases a.silence <;> cases a.noVersion <;>
              simp [printWorkingDir, List.filter_append, Event.isStderr]
    · simp only [Bool.not_true, Bool.false_eq_true, if_false]
      cases hO : a.options with
      | none =>
        cases hR : a.runFunc <;> cases a.silence <;> cases a.noVersion <;>
          simp [printWorkingDir, List.filter_append, Event.isStderr]
      | some o =>
        simp only
        split
        · rename_i heq
          rw [stderr_result a o w _ _ _ heq]
          cases a.silence <;> cases a.noVersion <;>
            simp [printWorkingDir, List.filter_append, Event.isStderr]
        · rename_i heq
          have ht := stderr_result a o w _ _ _ heq
          cases hR : a.runFunc <;> simp only [State.emit_trace, List.filter_append, ht] <;>
            cases a.silence <;> cases a.noVersion <;>
            simp [printWorkingDir, List.filter_append, Event.isStderr]
  · have h1 : a.noVersion = false := by
      cases hn : a.noVersion with
      | true => exact absurd (Or.inl hn) hv
      | false => rfl
    cases hreq : w.versionRequest with
    | none => exact absurd (Or.inr hreq) hv
    | some text =>
      unfold runCommand
      simp [h1, PrintAndExitIfRequested, hreq, List.filter_append, Event.isStderr]

/-- When `runCommand` returns, no version display was pending. -/
theorem runCommand_ret_passes {ε : Type} (a : App ε) (w : World ε) (s : State)
    (r : Option (GoError ε)) (h : (runCommand a w s).2 = .ret r) :
    a.noVersion = true ∨ w.versionRequest = none := by
  by_cases hv : a.noVersion = true ∨ w.versionRequest = none
  · exact hv
  · have h1 : a.noVersion = false := by
      cases hn : a.noVersion with
      | true => exact absurd (Or.inl hn) hv
      | false => rfl
    cases hreq : w.versionRequest with
    | none => exact absurd (Or.inr hreq) hv
    | some text =>
      unfold runCommand at h
      simp [h1, PrintAndExitIfRequested, hreq] at h

/-- The method `runCommand` renders no error and uses no marker: its run is
the same for every `Error()` method and every marker. -/
theorem runCommand_renders_nothing {ε : Type} (a : App ε) (w : World ε) (s : State)
    (m : ε → String) (mk : String) :
    runCommand a { w with msg := m, errorMarker := mk } s = runCommand a w s := rfl

/-- When the command returns, it has written nothing on standard error. -/
theorem Execute_stderr {ε : Type} (a : App ε) (w : World ε) (s : State)
    (r : Option (GoError ε)) (h : (Execute a w s).2 = .ret r) :
    (Execute a w s).1.trace.filter Event.isStderr = s.trace.filter Event.isStderr := by
  unfold Execute at h ⊢
  cases hp : w.parseErr with
  | some e => rfl
  | none =>
    simp only [hp] at h ⊢
    by_cases hh : (w.helpRequested || a.runFunc.isNone) = true
    · simp [hh, List.filter_append, Event.isStderr]
    · simp only [hh, Bool.false_eq_true, if_false] at h ⊢
      cases hnc : a.noConfig with
      | true =>
        simp only [hnc, Bool.not_true, Bool.false_eq_true, if_false] at h ⊢
        cases hargs : a.args.bind (fun check => check w.positional) with
        | some e => rfl
        | none => exact runCommand_stderr a w s
      | false =>
        simp only [hnc, Bool.not_false, if_true] at h ⊢
        cases hr : (locateConfig a.basename w.cfgFile s.viper).ReadInConfig w.readFile with
        | error e =>
          rw [onInitialize_failure a.basename w s e hr] at h
          simp at h
        | ok v =>
          unfold onInitialize at h ⊢
          simp only [hr] at h ⊢
          cases hargs : a.args.bind (fun check => check w.positional) with
          | some e => simp [List.filter_append, Event.isStderr]
          | none =>
            simp only
            rw [runCommand_stderr]
            simp [List.filter_append, Event.isStderr]

/-- When the command returns, it has rendered no error and used no marker:
its run is the same for every `Error()` method and every marker. -/
theorem Execute_renders_nothing {ε : Type} (a : App ε) (w : World ε) (s : State)
    (r : Option (GoError ε)) (h : (Execute a w s).2 = .ret r) (m : ε → String) (mk : String) :
    Execute a { w with msg := m, errorMarker := mk } s = Execute a w s := by
  unfold Execute at h ⊢
  cases hp : w.parseErr with
  | some e => rfl
  | none =>
    simp only [hp] at h ⊢
    by_cases hh : (w.helpRequested || a.runFunc.isNone) = true
    · simp [hh]
    · simp only [hh, Bool.false_eq_true, if_false] at h ⊢
      cases hnc : a.noConfig with
      | true => rfl
      | false =>
        simp only [hnc, Bool.not_false, if_true] at h ⊢
        cases hr : (locateConfig a.basename w.cfgFile s.viper).ReadInConfig w.readFile with
        | error e =>
          rw [onInitialize_failure a.basename w s e hr] at h
          simp at h
        | ok v =>
          unfold onInitialize
          simp only [hr]
          rfl

/-- In silent mode, when the command returns an error it has printed
nothing. -/
theorem Execute_silent_error {ε : Type} (a : App ε) (w : World ε) (s : State)
    (err : GoError ε) (hs : a.silence = true) (h : (Execute a w s).2 = .ret (some err)) :
    (Execute a w s).1.trace.filter Event.isOutput = s.trace.filter Event.isOutput := by
  unfold Execute at h ⊢
  cases hp : w.parseErr with
  | some e => rfl
  | none =>
    simp only [hp] at h ⊢
    by_cases hh : (w.helpRequested || a.runFunc.isNone) = true
    · simp [hh] at h
    · simp only [hh, Bool.false_eq_true, if_false] at h ⊢
      cases hnc : a.noConfig with
      | true =>
        simp only [hnc, Bool.not_true, Bool.false_eq_true, if_false] at h ⊢
        cases hargs : a.args.bind (fun check => check w.positional) with
        | some e => rfl
        | none =>
          simp only [hargs] at h
          exact runCommand_silent_passed a w s hs (runCommand_ret_passes a w s _ h)
      | false =>
        simp only [hnc, Bool.not_false, if_true] at h ⊢
        cases hr : (locateConfig a.basename w.cfgFile s.viper).ReadInConfig w.readFile with
        | error e =>
          rw [onInitialize_failure a.basename w s e hr] at h
          simp at h
        | ok v =>
          unfold onInitialize at h ⊢
          simp only [hr] at h ⊢
          cases hargs : a.args.bind (fun check => check w.positional) with
          | some e => simp [List.filter_append, Event.isOutput]
          | none =>
            simp only [hargs] at h
            simp only
            rw [runCommand_silent_passed a w _ hs (runCommand_ret_passes a w _ _ h)]
            simp [List.filter_append, Event.isOutput]

/-- C10 as amended: `Run` and `RunContext` do the same. When the command
returns an error, `Run` adds one event, the line of the marker `Error:` and
the message, and ends the process with status 1; the command itself has
rendered no error (its run is the same for every `Error()` method and every
marker) and has written nothing on standard error, so the message is printed
once; in silent mode that line is all the output of the run. When the
command returns nil, `Run` adds nothing and returns (exit status 0); when
the process ends inside the command, `Run` adds nothing. The exit status is
1 exactly when the command returns an error or ends the process with status
1, which happens only when reading the configuration file fails in the
initializer; otherwise it is 0. -/
theorem Run_exit_status {ε : Type} (a : App ε) (w : World ε) (s : State) :
    RunContext a w s = Run a w s
      ∧ (∀ err, (Execute a w s).2 = .ret (some err) →
          Run a w s = ((Execute a w s).1.emit
              (.stdout (w.errorMarker ++ " " ++ err.Error w.msg ++ "\n")), .exit 1)
            ∧ (∀ (m : ε → String) (mk : String),
                Execute a { w with msg := m, errorMarker := mk } s = Execute a w s)
            ∧ (Execute a w s).1.trace.filter Event.isStderr = s.trace.filter Event.isStderr
            ∧ (a.silence = true →
                (Run a w s).1.trace.filter Event.isOutput
                  = s.trace.filter Event.isOutput
                    ++ [Event.stdout (w.errorMarker ++ " " ++ err.Error w.msg ++ "\n")]))
      ∧ ((Execute a w s).2 = .ret none → Run a w s = ((Execute a w s).1, .ret ()))
      ∧ (∀ code, (Execute a w s).2 = .exit code → Run a w s = ((Execute a w s).1, .exit code))
      ∧ (exitCode (Run a w s).2 = 1 ↔
          ((∃ err, (Execute a w s).2 = .ret (some err)) ∨ (Execute a w s).2 = .exit 1))
      ∧ (exitCode (Run a w s).2 ≠ 1 → exitCode (Run a w s).2 = 0)
      ∧ ((Execute a w s).2 = .exit 1 → a.noConfig = false
          ∧ ∃ e, (locateConfig a.basename w.cfgFile s.viper).ReadInConfig w.readFile
              = .error e) := by
  have hone : (Execute a w s).2 = .exit 1 → a.noConfig = false
      ∧ ∃ e, (locateConfig a.basename w.cfgFile s.viper).ReadInConfig w.readFile
          = .error e := by
    intro h
    rcases Execute_exit a w s 1 h with h0 | ⟨_, h1, h2⟩
    · exact absurd h0 (by decide)
    · exact ⟨h1, h2⟩
  refine ⟨rfl, ?_, ?_, ?_, ?_, ?_, hone⟩
  · intro err h
    have hrun : Run a w s = ((Execute a w s).1.emit
        (.stdout (w.errorMarker ++ " " ++ err.Error w.msg ++ "\n")), .exit 1) := by
      unfold Run
      cases hE : Execute a w s with
      | mk s1 r =>
        rw [hE] at h
        simp only at h
        subst h
        rfl
    refine ⟨hrun, Execute_renders_nothing a w s _ h, Execute_stderr a w s _ h, fun hs => ?_⟩
    rw [hrun]
    simp only [State.emit_trace, List.filter_append, Execute_silent_error a w s err hs h]
    simp [Event.isOutput]
  · intro h
    unfold Run
    cases hE : Execute a w s with
    | mk s1 r =>
      rw [hE] at h
      simp only at h
      subst h
      rfl
  · intro code h
    unfold Run
    cases hE : Execute a w s with
    | mk s1 r =>
      rw [hE] at h
      simp only at h
      subst h
      rfl
  · unfold Run
    cases hE : Execute a w s with
    | mk s1 r =>
      cases r with
      | ret x =>
        cases x with
        | none => simp [exitCode]
        | some err => simp [exitCode]
      | exit code => simp [exitCode]
  · intro h
    have hc : exitCode (Run a w s).2 = 0 ∨ exitCode (Run a w s).2 = 1
        ∨ ∃ code, (Execute a w s).2 = .exit code ∧ exitCode (Run a w s).2 = code := by
      unfold Run
      cases hE : Execute a w s with
      | mk s1 r =>
        cases r with
        | ret x =>
          cases x with
          | none => exact Or.inl rfl
          | some err => exact Or.inr (Or.inl rfl)
        | exit code => exact Or.inr (Or.inr ⟨code, rfl, rfl⟩)
    rcases hc with h0 | h1 | ⟨code, hx, hy⟩
    · exact h0
    · exact absurd h1 h
    · rcases Execute_exit a w s code hx with hz | ⟨ho, _, _⟩
      · rw [hy, hz]
      · rw [ho] at hy
        exact absurd hy h

/-- C10 as amended, at the spy app and at the same app in silent mode: the
command returns the error `boom`, `Run` prints it once, the exit status is
1, and in silent mode the line is all the output. -/
theorem Run_exit_status_witness :
    Run spyApp plainWorld {}
        = ((Execute spyApp plainWorld {}).1.emit (.stdout "Error: boom\n"), .exit 1)
      ∧ exitCode (Run spyApp plainWorld {}).2 = 1
      ∧ (Run silentSpy plainWorld {}).1.trace.filter Event.isOutput
          = [Event.stdout "Error: boom\n"] :=
  ⟨((Run_exit_status spyApp plainWorld {}).2.1 (.err "boom") (by decide)).1,
    (Run_exit_status spyApp plainWorld {}).2.2.2.2.1.2 (Or.inl ⟨.err "boom", by decide⟩),
    ((Run_exit_status silentSpy plainWorld {}).2.1 (.err "boom") (by decide)).2.2.2 rfl⟩

end app
